import Mathlib

/-!
# minor-backend: player registry and proximity grouping

A shallow embedding of `main.go` (types `Player`, `Game`; functions `isNearby`,
`Game.getGroupID`, `Game.GetPlayer`, `Game.AddPlayer`, `Game.genPlayerID`, and the
two handlers as far as they drive the registry).

Modelling conventions

* `*Player` values are addresses (`Ptr`) into an explicit heap `Ptr → Player`;
  a write through a pointer is a `Function.update` of the heap.  The objects a
  caller passes to `AddPlayer` are in the heap of the fresh registry; the
  allocation `&Player{...}` of `InitPlayerHandler` writes the new object at an
  address given as an argument.
* `map[PlayerID]*Player` is a list of key/pointer entries.  The position of an
  entry in that list carries no meaning: a `range` loop over a Go map visits the
  entries in an unspecified order that may change from one loop to the next, so
  `getGroupID` takes the order of its scan as an explicit argument, which is a
  permutation of the entries (`IsScanOrder`).
* `int64` values are `Int`; the only arithmetic on them is `playersCounter++`,
  which wraps (`wrapInt64`).
* A `float64` coordinate is the rational number it denotes (finite values only:
  infinities and NaN are not modelled).  The subtraction in `isNearby` is the
  float64 one: the exact difference rounded to the nearest float64, ties to even
  (`roundF64`).  A difference beyond the float64 range, which the machine returns
  as an infinity, comes out as a rational above `2 ^ 1023`; neither is below 0.5,
  the only thing `isNearby` asks of it.  `math.Abs` and `<` are exact on float64
  values.
* The mutexes `mxG` and `mx` are no-ops for a single caller and are not modelled.
-/

namespace MinorBackend

/-! ## Constants and data types -/

/-- Source: `const MaxPlayers = 100`. -/
def MaxPlayers : Int := 100

/-- Source: `const GroupingThreshold = 0.5`. -/
def GroupingThreshold : ℚ := 1 / 2

/-- Source: `type PlayerID int64`. -/
abbrev PlayerID := Int

/-- Source: `type GroupID int64`. -/
abbrev GroupID := Int

/-- Address of a `Player` object (a non-nil `*Player`). -/
abbrev Ptr := Nat

/-- Source: `type Player struct { PlayerID; GroupID; X, Y float64 }`. -/
structure Player where
  PlayerID : PlayerID
  GroupID : GroupID
  X : ℚ
  Y : ℚ
deriving DecidableEq

/-- The errors built with `fmt.Errorf` in `main.go`: "unknown player",
"player exists" and "max players reached". -/
inductive GameError where
  | unknownPlayer
  | playerExists
  | maxPlayersReached
deriving DecidableEq, Repr

/-- Source: `type Game struct`: the map `Players`, the counter `playersCounter`, and the
heap holding the `Player` objects that the stored pointers refer to. -/
structure Game where
  heap : Ptr → Player
  Players : List (PlayerID × Ptr)
  playersCounter : Int

/-! ## The Go map `map[PlayerID]*Player` -/

/-- Map lookup `v, ok := m[id]`: `none` is `ok == false`. -/
def mapGet : List (PlayerID × Ptr) → PlayerID → Option Ptr
  | [], _ => none
  | (k, v) :: m, id => if k = id then some v else mapGet m id

/-- Map assignment `m[id] = v`: overwrite the entry of `id` when there is one, add one otherwise. -/
def mapSet : List (PlayerID × Ptr) → PlayerID → Ptr → List (PlayerID × Ptr)
  | [], id, v => [(id, v)]
  | (k, w) :: m, id, v => if k = id then (k, v) :: m else (k, w) :: mapSet m id v

/-- An order in which `for id, player := range g.Players` may visit the map:
every entry exactly once. -/
def IsScanOrder (g : Game) (order : List (PlayerID × Ptr)) : Prop :=
  order.Perm g.Players

/-- Representation invariant of the registry: keys are unique (it is a map) and
every participant is stored under its own id. -/
def Game.WF (g : Game) : Prop :=
  (g.Players.map Prod.fst).Nodup ∧ ∀ e ∈ g.Players, (g.heap e.2).PlayerID = e.1

/-- The pointer `p` is a value of the map. -/
def Game.Stored (g : Game) (p : Ptr) : Prop :=
  ∃ id, (id, p) ∈ g.Players

/-! ## The functions of `main.go` -/

/-- Wrap-around of `int64` arithmetic. -/
def wrapInt64 (n : Int) : Int :=
  (n + 9223372036854775808) % 18446744073709551616 - 9223372036854775808

/-- Rounding of a rational to the nearest integer, a tie going to the even one. -/
def roundHalfEven (t : ℚ) : Int :=
  if t - ⌊t⌋ < 1 / 2 then ⌊t⌋
  else if 1 / 2 < t - ⌊t⌋ then ⌊t⌋ + 1
  else if ⌊t⌋ % 2 = 0 then ⌊t⌋
  else ⌊t⌋ + 1

/-- The exponent of the spacing of the float64 values around the magnitude `a > 0`:
52 below the binary exponent of `a` (53 significant bits), and never below -1074
(subnormal numbers). -/
def ulpExponent (a : ℚ) : Int :=
  max (Int.log 2 a - 52) (-1074)

/-- The float64 nearest to the magnitude `a ≥ 0`, ties to even. -/
def roundMag (a : ℚ) : ℚ :=
  if a = 0 then 0
  else (roundHalfEven (a / (2 : ℚ) ^ ulpExponent a) : ℚ) * (2 : ℚ) ^ ulpExponent a

/-- Rounding to the nearest float64, ties to even: the value a float64 operation
returns for the exact result `q`, and the float64 a decimal constant denotes. -/
def roundF64 (q : ℚ) : ℚ :=
  if 0 ≤ q then roundMag q else -roundMag (-q)

/-- The rational `q` is a float64 value. -/
def IsFloat64 (q : ℚ) : Prop :=
  roundF64 q = q

/-- Source: `func isNearby(x1, y1, x2, y2 float64) bool`, with the float64
subtractions `x1-x2` and `y1-y2`. -/
def isNearby (x1 y1 x2 y2 : ℚ) : Bool :=
  decide (|roundF64 (x1 - x2)| < GroupingThreshold) &&
    decide (|roundF64 (y1 - y2)| < GroupingThreshold)

/-- Source: `func (g *Game) getGroupID(p *Player) GroupID`; `order` is the order in which
the `range` loop visits the map. -/
def getGroupID (g : Game) (order : List (PlayerID × Ptr)) (p : Ptr) : GroupID × Game :=
  match order with
  | [] => ((g.heap p).GroupID, g)
  | (id, player) :: rest =>
    if id = (g.heap p).PlayerID then
      getGroupID g rest p
    else if isNearby (g.heap player).X (g.heap player).Y (g.heap p).X (g.heap p).Y then
      let g1 : Game :=
        { g with heap := Function.update g.heap p
                   { g.heap p with GroupID := (g.heap player).GroupID } }
      ((g1.heap p).GroupID, g1)
    else
      getGroupID g rest p

/-- Source: `func (g *Game) GetPlayer(id PlayerID) (*Player, error)`. -/
def GetPlayer (g : Game) (id : PlayerID) : Except GameError Ptr × Game :=
  match mapGet g.Players id with
  | none => (.error .unknownPlayer, g)
  | some p => (.ok p, g)

/-- Source: `func (g *Game) AddPlayer(p *Player) error`; `none` is the `nil` error. -/
def AddPlayer (g : Game) (p : Ptr) : Option GameError × Game :=
  match mapGet g.Players (g.heap p).PlayerID with
  | some _ => (some .playerExists, g)
  | none =>
    let heap1 := Function.update g.heap p { g.heap p with GroupID := (g.heap p).PlayerID }
    (none, { g with heap := heap1, Players := mapSet g.Players (heap1 p).PlayerID p })

/-- Source: `func (g *Game) genPlayerID() (PlayerID, error)`; `none` is the `nil` error. -/
def genPlayerID (g : Game) : (PlayerID × Option GameError) × Game :=
  if g.playersCounter = MaxPlayers then
    ((-1, some .maxPlayersReached), g)
  else
    let id : PlayerID := g.playersCounter
    ((id, none), { g with playersCounter := wrapInt64 (g.playersCounter + 1) })

/-- The registry part of `Handler.GroupHandler`: `GetPlayer`, then `getGroupID` on
the pointer it returned. -/
def GroupHandler (g : Game) (order : List (PlayerID × Ptr)) (id : PlayerID) :
    Except GameError GroupID × Game :=
  match GetPlayer g id with
  | (.error err, g1) => (.error err, g1)
  | (.ok player, g1) =>
    let r := getGroupID g1 order player
    (.ok r.1, r.2)

/-- The registry built in `main`: an empty map and counter zero. -/
def newGame (heap : Ptr → Player) : Game :=
  { heap := heap, Players := [], playersCounter := 0 }

/-! ## Vocabulary of the specification -/

/-- The entry `e` of the map is another participant (registered under an id
different from the id of `p`) that is nearby `p`: the test made on each entry
by the loop of `getGroupID`. -/
def nearbyOther (g : Game) (p : Ptr) (e : PlayerID × Ptr) : Bool :=
  decide (e.1 ≠ (g.heap p).PlayerID) &&
    isNearby (g.heap e.2).X (g.heap e.2).Y (g.heap p).X (g.heap p).Y

/-- One call of a registry operation, with its arguments; for `getGroupID` also
the order in which that call scans the map. -/
inductive Op where
  | genPlayerID
  | AddPlayer (p : Ptr)
  | GetPlayer (id : PlayerID)
  | getGroupID (order : List (PlayerID × Ptr)) (p : Ptr)

/-- The registry after the call `op`. -/
def Op.next (g : Game) : Op → Game
  | .genPlayerID => (MinorBackend.genPlayerID g).2
  | .AddPlayer p => (MinorBackend.AddPlayer g p).2
  | .GetPlayer id => (MinorBackend.GetPlayer g id).2
  | .getGroupID order p => (MinorBackend.getGroupID g order p).2

/-- The id issued by the call `op`, when it is a successful `genPlayerID`. -/
def Op.issued (g : Game) : Op → Option PlayerID
  | .genPlayerID =>
    match (MinorBackend.genPlayerID g).1 with
    | (id, none) => some id
    | (_, some _) => none
  | _ => none

/-- The registry after a sequential trace of calls. -/
def runTrace (g : Game) : List Op → Game
  | [] => g
  | op :: ops => runTrace (op.next g) ops

/-- The ids returned by the successful `genPlayerID` calls of a trace, in call order. -/
def issuedIds (g : Game) : List Op → List PlayerID
  | [] => []
  | op :: ops =>
    match op.issued g with
    | some id => id :: issuedIds (op.next g) ops
    | none => issuedIds (op.next g) ops

/-- The registry after `n` consecutive calls of `genPlayerID`. -/
def genTimes (g : Game) : Nat → Game
  | 0 => g
  | n + 1 => (genPlayerID (genTimes g n)).2


/-! ## Concrete registries used as test inputs -/

/-- The heap in which the objects of `l` sit at the addresses 0, 1, 2, ... -/
def heapOf (l : List Player) : Ptr → Player :=
  fun ptr => l.getD ptr { PlayerID := 0, GroupID := 0, X := 0, Y := 0 }

/-- The float64 that the Go constant `0.2` denotes. -/
def float02 : ℚ := roundF64 (1 / 5)

/-- The float64 that the Go constant `0.4` denotes. -/
def float04 : ℚ := roundF64 (2 / 5)

/-- The float64 that the Go constant `0.8` denotes. -/
def float08 : ℚ := roundF64 (4 / 5)

/-- Two participants, ids 0 and 1, at (0,0) and (0.2,0.2), each in its own group. -/
def twoNear : Game :=
  { heap := heapOf [{ PlayerID := 0, GroupID := 0, X := 0, Y := 0 },
                    { PlayerID := 1, GroupID := 1, X := float02, Y := float02 }]
    Players := [(0, 0), (1, 1)]
    playersCounter := 2 }

/-- Two participants, ids 0 and 1, at (0,0) and (0.5,0): exactly the threshold
apart on the x axis. -/
def twoAtThreshold : Game :=
  { heap := heapOf [{ PlayerID := 0, GroupID := 0, X := 0, Y := 0 },
                    { PlayerID := 1, GroupID := 1, X := 1 / 2, Y := 0 }]
    Players := [(0, 0), (1, 1)]
    playersCounter := 2 }

/-- Three participants, ids 0, 1 and 2, all at (0,0), registered one after the
other with `AddPlayer` in a fresh registry. -/
def threeAtOrigin : Game :=
  (AddPlayer (AddPlayer (AddPlayer (newGame (heapOf
    [{ PlayerID := 0, GroupID := 0, X := 0, Y := 0 },
     { PlayerID := 1, GroupID := 0, X := 0, Y := 0 },
     { PlayerID := 2, GroupID := 0, X := 0, Y := 0 }])) 0).2 1).2 2).2

/-- The objects of three participants A, B and C with ids `a`, `b` and `c`, at
(0,0), (0.4,0.4) and (0.8,0.8), at the addresses 0, 1 and 2, as they are before
they are registered (group zero, as in `InitPlayerHandler`). -/
def abcHeap (a b c : PlayerID) : Ptr → Player :=
  heapOf [{ PlayerID := a, GroupID := 0, X := 0, Y := 0 },
          { PlayerID := b, GroupID := 0, X := float04, Y := float04 },
          { PlayerID := c, GroupID := 0, X := float08, Y := float08 }]

/-- The registry holding exactly A, B and C, each inserted with `AddPlayer`. -/
def abcGame (a b c : PlayerID) : Game :=
  (AddPlayer (AddPlayer (AddPlayer (newGame (abcHeap a b c)) 0).2 1).2 2).2

/-- The states reached from `abcGame a b c` by any sequence of `getGroupID` calls
on A, B and C, each call scanning the map in any order. -/
inductive AbcReach (a b c : PlayerID) : Game → Prop where
  | init : AbcReach a b c (abcGame a b c)
  | call (g : Game) (order : List (PlayerID × Ptr)) (p : Ptr) :
      AbcReach a b c g → IsScanOrder g order → (p = 0 ∨ p = 1 ∨ p = 2) →
      AbcReach a b c (getGroupID g order p).2

/-! ## The register entry point and reachable states -/

/-- The registry part of `Handler.InitPlayerHandler`: `genPlayerID`, then the
allocation `&Player{PlayerID: id, X: ..., Y: ...}` at the address `ptr` (the group
field is zero), then `AddPlayer` on that pointer.  The coordinates `x` and `y` stand
for `rand.Float64() * h.Map.Width` and `rand.Float64() * h.Map.Height`.  The result
is the error the handler reports, `none` when it answers `StatusCreated`. -/
def InitPlayerHandler (g : Game) (ptr : Ptr) (x y : ℚ) : Option GameError × Game :=
  match genPlayerID g with
  | ((_, some err), g1) => (some err, g1)
  | ((id, none), g1) =>
    let g2 : Game :=
      { g1 with heap := Function.update g1.heap ptr
                  { PlayerID := id, GroupID := 0, X := x, Y := y } }
    AddPlayer g2 ptr

/-- The address `ptr` is not referenced by the map: what an allocation returns. -/
def Game.FreshPtr (g : Game) (ptr : Ptr) : Prop :=
  ∀ e ∈ g.Players, e.2 ≠ ptr

/-- The states reached from a fresh registry by any sequence of calls of the four
registry operations, with any arguments; each `getGroupID` call scans the map in
any order. -/
inductive Reachable : Game → Prop where
  | fresh (heap : Ptr → Player) : Reachable (newGame heap)
  | genPlayerID (g : Game) : Reachable g → Reachable (MinorBackend.genPlayerID g).2
  | AddPlayer (g : Game) (p : Ptr) : Reachable g → Reachable (MinorBackend.AddPlayer g p).2
  | GetPlayer (g : Game) (id : PlayerID) :
      Reachable g → Reachable (MinorBackend.GetPlayer g id).2
  | getGroupID (g : Game) (order : List (PlayerID × Ptr)) (p : Ptr) :
      Reachable g → IsScanOrder g order → Reachable (MinorBackend.getGroupID g order p).2

/-- The states reached from a fresh registry when participants are registered only
through the register entry point (`InitPlayerHandler`, each allocation at an
address the map does not reference); `genPlayerID`, `GetPlayer`, `getGroupID` and
the group query may be called freely in between. -/
inductive HandlerReach : Game → Prop where
  | fresh (heap : Ptr → Player) : HandlerReach (newGame heap)
  | register (g : Game) (ptr : Ptr) (x y : ℚ) :
      HandlerReach g → g.FreshPtr ptr → HandlerReach (InitPlayerHandler g ptr x y).2
  | genPlayerID (g : Game) : HandlerReach g → HandlerReach (MinorBackend.genPlayerID g).2
  | GetPlayer (g : Game) (id : PlayerID) :
      HandlerReach g → HandlerReach (MinorBackend.GetPlayer g id).2
  | getGroupID (g : Game) (order : List (PlayerID × Ptr)) (p : Ptr) :
      HandlerReach g → IsScanOrder g order →
      HandlerReach (MinorBackend.getGroupID g order p).2
  | query (g : Game) (order : List (PlayerID × Ptr)) (id : PlayerID) :
      HandlerReach g → IsScanOrder g order → HandlerReach (GroupHandler g order id).2

/-- The values of an `int64`. -/
def IsInt64 (n : Int) : Prop :=
  -9223372036854775808 ≤ n ∧ n ≤ 9223372036854775807

/-- The largest `int64`. -/
def MaxInt64 : Int := 9223372036854775807

/-- The heap whose object at address `n` has id `n` and sits at (0,0). -/
def idHeap : Ptr → Player :=
  fun ptr => { PlayerID := (ptr : Int), GroupID := 0, X := 0, Y := 0 }

/-- The registry after `AddPlayer` was called on the objects 0, 1, ..., `n - 1` of
`idHeap`, starting from the fresh registry; `genPlayerID` is never called. -/
def addTimes : Nat → Game
  | 0 => newGame idHeap
  | n + 1 => (AddPlayer (addTimes n) n).2

/-- A fresh registry, and at address 0 a participant built with id 5 and group 9
at (1,2), not registered yet. -/
def freshWithFive : Game :=
  newGame (heapOf [{ PlayerID := 5, GroupID := 9, X := 1, Y := 2 }])

/-- The participant of `freshWithFive` registered with `AddPlayer`. -/
def loneAdded : Game :=
  (AddPlayer freshWithFive 0).2

/-- The registry after one registration through `InitPlayerHandler` (allocation at
address 0, coordinates (1,2)) in the fresh registry of `freshWithFive`. -/
def oneRegistered : Game :=
  (InitPlayerHandler freshWithFive 0 1 2).2

/-- Two participants registered with `AddPlayer` in a fresh registry: id 0 at
(0.5, 0) and id 1 at (2^-60, 0).  Their exact distance on the x axis,
0.5 - 2^-60, is below 0.5, and the float64 subtraction rounds it to 0.5. -/
def twoRounding : Game :=
  (AddPlayer (AddPlayer (newGame (heapOf
    [{ PlayerID := 0, GroupID := 0, X := 1 / 2, Y := 0 },
     { PlayerID := 1, GroupID := 0, X := 1 / 1152921504606846976, Y := 0 }])) 0).2 1).2

/-! # Properties -/

/-! ## The float64 subtraction of `isNearby` -/

theorem roundHalfEven_le (t : ℚ) (K : Int) (h : t < K + 1 / 2) : roundHalfEven t ≤ K := by
  have hfl : ⌊t⌋ ≤ K := by
    rw [← Int.lt_add_one_iff, Int.floor_lt]
    push_cast
    linarith
  unfold roundHalfEven
  have hfrac : t - ⌊t⌋ < 1 / 2 ∨ ⌊t⌋ + 1 ≤ K := by
    rcases lt_or_eq_of_le hfl with hlt | heq
    · right; omega
    · left; rw [heq]; linarith
  rcases hfrac with h1 | h2
  · rw [if_pos h1]; exact hfl
  · split_ifs <;> omega

theorem le_roundHalfEven (t : ℚ) (K : Int) (h : (K : ℚ) - 1 / 2 < t) : K ≤ roundHalfEven t := by
  have hfl : K - 1 ≤ ⌊t⌋ := by
    rw [Int.le_floor]
    push_cast
    linarith
  have hlt : t < ⌊t⌋ + 1 := Int.lt_floor_add_one t
  unfold roundHalfEven
  rcases lt_or_eq_of_le hfl with hlt2 | heq
  · split_ifs <;> omega
  · have hf : (⌊t⌋ : ℚ) = K - 1 := by rw [← heq]; push_cast; ring
    have h1 : ¬ t - ⌊t⌋ < 1 / 2 := by rw [hf]; linarith
    have h2 : 1 / 2 < t - ⌊t⌋ := by rw [hf]; linarith
    rw [if_neg h1, if_pos h2]
    omega

theorem le_roundHalfEven_of_odd (t : ℚ) (K : Int) (hodd : K % 2 = 1)
    (h : (K : ℚ) + 1 / 2 ≤ t) : K + 1 ≤ roundHalfEven t := by
  rcases lt_or_eq_of_le h with hlt | heq
  · apply le_roundHalfEven
    push_cast
    linarith
  · have hfl : ⌊t⌋ = K := by
      rw [Int.floor_eq_iff]
      constructor <;> linarith
    unfold roundHalfEven
    have h1 : ¬ t - ⌊t⌋ < 1 / 2 := by rw [hfl]; linarith
    have h2 : ¬ 1 / 2 < t - ⌊t⌋ := by rw [hfl]; linarith
    have h3 : ¬ ⌊t⌋ % 2 = 0 := by rw [hfl]; omega
    rw [if_neg h1, if_neg h2, if_neg h3, hfl]


theorem roundHalfEven_nonneg (t : ℚ) (h : 0 ≤ t) : 0 ≤ roundHalfEven t := by
  apply le_roundHalfEven
  push_cast
  linarith

theorem roundMag_nonneg (a : ℚ) (ha : 0 ≤ a) : 0 ≤ roundMag a := by
  unfold roundMag
  split_ifs with h0
  · exact le_refl _
  · have hp : (0 : ℚ) < (2 : ℚ) ^ ulpExponent a := zpow_pos (by norm_num) _
    have ht : 0 ≤ a / (2 : ℚ) ^ ulpExponent a := div_nonneg ha hp.le
    have := roundHalfEven_nonneg _ ht
    exact mul_nonneg (by exact_mod_cast this) hp.le

theorem abs_roundF64 (q : ℚ) : |roundF64 q| = roundMag |q| := by
  unfold roundF64
  split_ifs with h
  · rw [abs_of_nonneg h, abs_of_nonneg (roundMag_nonneg q h)]
  · have hq : q < 0 := not_le.mp h
    rw [abs_of_neg hq, abs_neg, abs_of_nonneg (roundMag_nonneg (-q) (by linarith))]

theorem half_le_roundMag (a : ℚ) (ha : 1 / 2 - 1 / 36028797018963968 ≤ a) :
    1 / 2 ≤ roundMag a := by
  have hpos : 0 < a := by linarith
  have hne : a ≠ 0 := ne_of_gt hpos
  have hL2 : -2 ≤ Int.log 2 a := by
    rw [← Int.zpow_le_iff_le_log (by norm_num) hpos]
    norm_num
    linarith
  have he : ulpExponent a = Int.log 2 a - 52 := by
    unfold ulpExponent
    omega
  have hpow : (0 : ℚ) < (2 : ℚ) ^ (Int.log 2 a - 52) := zpow_pos (by norm_num) _
  unfold roundMag
  rw [if_neg hne, he]
  rcases lt_or_eq_of_le hL2 with hlt | heq
  · -- normal case: the magnitude is at least 2 ^ (log)
    have hself : (2 : ℚ) ^ Int.log 2 a ≤ a := by
      have := Int.zpow_log_le_self (R := ℚ) (b := 2) (by norm_num) hpos
      simpa using this
    have hsplit : (2 : ℚ) ^ Int.log 2 a = (2 : ℚ) ^ (Int.log 2 a - 52) * (2 : ℚ) ^ (52 : ℤ) := by
      rw [← zpow_add₀ (by norm_num : (2 : ℚ) ≠ 0)]
      congr 1
      omega
    have ht : (4503599627370496 : ℚ) ≤ a / (2 : ℚ) ^ (Int.log 2 a - 52) := by
      rw [le_div_iff₀ hpow]
      have h52 : (2 : ℚ) ^ (52 : ℤ) = 4503599627370496 := by norm_num
      rw [hsplit, h52] at hself
      linarith
    have hm : (4503599627370496 : Int) ≤ roundHalfEven (a / (2 : ℚ) ^ (Int.log 2 a - 52)) := by
      apply le_roundHalfEven
      push_cast
      linarith
    have hmq : (4503599627370496 : ℚ) ≤ (roundHalfEven (a / (2 : ℚ) ^ (Int.log 2 a - 52)) : ℚ) := by
      exact_mod_cast hm
    have hL1 : (2 : ℚ) ^ (-1 : ℤ) ≤ (2 : ℚ) ^ Int.log 2 a :=
      zpow_le_zpow_right₀ (by norm_num) (by omega)
    have h52 : (2 : ℚ) ^ (52 : ℤ) = 4503599627370496 := by norm_num
    calc (1 : ℚ) / 2 = (2 : ℚ) ^ (-1 : ℤ) := by norm_num
      _ ≤ (2 : ℚ) ^ Int.log 2 a := hL1
      _ = 4503599627370496 * (2 : ℚ) ^ (Int.log 2 a - 52) := by rw [hsplit, h52]; ring
      _ ≤ _ := mul_le_mul_of_nonneg_right hmq hpow.le
  · -- the binade [1/4, 1/2): the grid step is 2 ^ (-54) and the tie goes up
    rw [← heq]
    have h54 : (2 : ℚ) ^ ((-2 : ℤ) - 52) = 1 / 18014398509481984 := by norm_num
    rw [h54]
    have hm : (9007199254740991 : Int) + 1 ≤ roundHalfEven (a / (1 / 18014398509481984)) := by
      apply le_roundHalfEven_of_odd
      · decide
      · push_cast
        rw [div_div_eq_mul_div, div_one]
        linarith
    have hmq : (9007199254740992 : ℚ) ≤ (roundHalfEven (a / (1 / 18014398509481984)) : ℚ) := by
      exact_mod_cast hm
    linarith


theorem roundMag_lt_half (a : ℚ) (ha0 : 0 ≤ a) (ha : a < 1 / 2 - 1 / 36028797018963968) :
    roundMag a < 1 / 2 := by
  unfold roundMag
  split_ifs with hz
  · norm_num
  · have hpos : 0 < a := lt_of_le_of_ne ha0 (Ne.symm hz)
    have hL : Int.log 2 a < -1 := by
      rw [← Int.lt_zpow_iff_log_lt (by norm_num) hpos]
      norm_num
      linarith
    have he1 : ulpExponent a ≤ -54 := by
      unfold ulpExponent
      omega
    obtain ⟨n, hn⟩ : ∃ n : ℕ, ulpExponent a = -((54 + n : ℕ) : ℤ) := by
      refine ⟨(-54 - ulpExponent a).toNat, ?_⟩
      push_cast
      rw [Int.toNat_of_nonneg (by omega)]
      omega
    have hpow : (2 : ℚ) ^ ulpExponent a = ((2 : ℚ) ^ 54 * (2 : ℚ) ^ n)⁻¹ := by
      rw [hn, zpow_neg, zpow_natCast, pow_add]
    have hP : (1 : ℚ) ≤ (2 : ℚ) ^ n := one_le_pow₀ (by norm_num)
    have hden : (0 : ℚ) < (2 : ℚ) ^ 54 * (2 : ℚ) ^ n := by positivity
    rw [hpow]
    have ht : a / ((2 : ℚ) ^ 54 * (2 : ℚ) ^ n)⁻¹ = a * ((2 : ℚ) ^ 54 * (2 : ℚ) ^ n) := by
      rw [div_inv_eq_mul]
    rw [ht]
    have hK : roundHalfEven (a * ((2 : ℚ) ^ 54 * (2 : ℚ) ^ n)) ≤ (2 : ℤ) ^ 53 * (2 : ℤ) ^ n - 1 := by
      apply roundHalfEven_le
      push_cast
      have h1 : a * ((2 : ℚ) ^ 54 * (2 : ℚ) ^ n) <
          (1 / 2 - 1 / 36028797018963968) * ((2 : ℚ) ^ 54 * (2 : ℚ) ^ n) :=
        mul_lt_mul_of_pos_right ha hden
      have h2 : (1 / 2 - 1 / 36028797018963968) * ((2 : ℚ) ^ 54 * (2 : ℚ) ^ n) =
          (2 : ℚ) ^ 53 * (2 : ℚ) ^ n - (2 : ℚ) ^ n / 2 := by
        norm_num
        ring
      rw [h2] at h1
      linarith
    have hKq : (roundHalfEven (a * ((2 : ℚ) ^ 54 * (2 : ℚ) ^ n)) : ℚ) ≤
        (2 : ℚ) ^ 53 * (2 : ℚ) ^ n - 1 := by
      exact_mod_cast hK
    have hinv : (0 : ℚ) < ((2 : ℚ) ^ 54 * (2 : ℚ) ^ n)⁻¹ := inv_pos.mpr hden
    calc (roundHalfEven (a * ((2 : ℚ) ^ 54 * (2 : ℚ) ^ n)) : ℚ) * ((2 : ℚ) ^ 54 * (2 : ℚ) ^ n)⁻¹
        ≤ ((2 : ℚ) ^ 53 * (2 : ℚ) ^ n - 1) * ((2 : ℚ) ^ 54 * (2 : ℚ) ^ n)⁻¹ :=
          mul_le_mul_of_nonneg_right hKq hinv.le
      _ = 1 / 2 - ((2 : ℚ) ^ 54 * (2 : ℚ) ^ n)⁻¹ := by
          field_simp
          ring
      _ < 1 / 2 := by linarith

/-- The float64 test `math.Abs(x - y) < 0.5` in exact terms: the difference rounds
to a value below 0.5 exactly when it is below `0.5 - 2^-55`, the midpoint between
0.5 and the float64 just below it. -/
theorem abs_roundF64_lt_half_iff (q : ℚ) :
    |roundF64 q| < 1 / 2 ↔ |q| < 1 / 2 - 1 / 36028797018963968 := by
  rw [abs_roundF64]
  constructor
  · intro h
    by_contra hn
    have := half_le_roundMag |q| (not_lt.mp hn)
    linarith
  · intro h
    exact roundMag_lt_half |q| (abs_nonneg q) h

theorem isNearby_iff_exact (x1 y1 x2 y2 : ℚ) :
    isNearby x1 y1 x2 y2 = true ↔
      |x1 - x2| < 1 / 2 - 1 / 36028797018963968 ∧
      |y1 - y2| < 1 / 2 - 1 / 36028797018963968 := by
  simp only [isNearby, GroupingThreshold, Bool.and_eq_true, decide_eq_true_eq,
    abs_roundF64_lt_half_iff]


theorem roundHalfEven_eq (t : ℚ) (m : Int) (h : |t - m| < 1 / 2) : roundHalfEven t = m := by
  rw [abs_lt] at h
  apply le_antisymm
  · apply roundHalfEven_le; linarith
  · apply le_roundHalfEven; linarith

theorem roundMag_eq (a : ℚ) (L m : Int) (hpos : 0 < a)
    (h1 : (2 : ℚ) ^ L ≤ a) (h2 : a < (2 : ℚ) ^ (L + 1)) (hL : -1022 ≤ L)
    (hm : |a / (2 : ℚ) ^ (L - 52) - m| < 1 / 2) :
    roundMag a = (m : ℚ) * (2 : ℚ) ^ (L - 52) := by
  have hlog : Int.log 2 a = L := by
    apply le_antisymm
    · have : Int.log 2 a < L + 1 := by
        rw [← Int.lt_zpow_iff_log_lt (by norm_num) hpos]
        simpa using h2
      omega
    · rw [← Int.zpow_le_iff_le_log (by norm_num) hpos]
      simpa using h1
  have he : ulpExponent a = L - 52 := by
    unfold ulpExponent
    rw [hlog]
    omega
  unfold roundMag
  rw [if_neg (ne_of_gt hpos), he, roundHalfEven_eq _ m hm]

theorem roundF64_zero : roundF64 0 = 0 := by
  simp [roundF64, roundMag]

theorem roundF64_one_fifth :
    roundF64 (1 / 5) = 3602879701896397 / 18014398509481984 := by
  have h := roundMag_eq (1 / 5) (-3) 7205759403792794 (by norm_num) (by norm_num)
    (by norm_num) (by norm_num) (by norm_num [abs_lt])
  rw [roundF64, if_pos (by norm_num), h]
  norm_num

theorem roundF64_two_fifths :
    roundF64 (2 / 5) = 3602879701896397 / 9007199254740992 := by
  have h := roundMag_eq (2 / 5) (-2) 7205759403792794 (by norm_num) (by norm_num)
    (by norm_num) (by norm_num) (by norm_num [abs_lt])
  rw [roundF64, if_pos (by norm_num), h]
  norm_num

theorem roundF64_four_fifths :
    roundF64 (4 / 5) = 3602879701896397 / 4503599627370496 := by
  have h := roundMag_eq (4 / 5) (-1) 7205759403792794 (by norm_num) (by norm_num)
    (by norm_num) (by norm_num) (by norm_num [abs_lt])
  rw [roundF64, if_pos (by norm_num), h]
  norm_num

theorem roundF64_half : roundF64 (1 / 2) = 1 / 2 := by
  have h := roundMag_eq (1 / 2) (-1) 4503599627370496 (by norm_num) (by norm_num)
    (by norm_num) (by norm_num) (by norm_num [abs_lt])
  rw [roundF64, if_pos (by norm_num), h]
  norm_num

theorem roundF64_two_pow_neg_sixty :
    roundF64 (1 / 1152921504606846976) = 1 / 1152921504606846976 := by
  have h := roundMag_eq (1 / 1152921504606846976) (-60) 4503599627370496 (by norm_num)
    (by norm_num) (by norm_num) (by norm_num) (by norm_num [abs_lt])
  rw [roundF64, if_pos (by norm_num), h]
  norm_num

theorem float02_eq : float02 = 3602879701896397 / 18014398509481984 := roundF64_one_fifth

theorem float04_eq : float04 = 3602879701896397 / 9007199254740992 := roundF64_two_fifths

theorem float08_eq : float08 = 3602879701896397 / 4503599627370496 := roundF64_four_fifths

theorem nearbyOther_eq_true_iff (g : Game) (p : Ptr) (e : PlayerID × Ptr) :
    nearbyOther g p e = true ↔
      e.1 ≠ (g.heap p).PlayerID ∧
      |(g.heap e.2).X - (g.heap p).X| < 1 / 2 - 1 / 36028797018963968 ∧
      |(g.heap e.2).Y - (g.heap p).Y| < 1 / 2 - 1 / 36028797018963968 := by
  simp only [nearbyOther, Bool.and_eq_true, decide_eq_true_eq, isNearby_iff_exact]


/-! ## The scan of `getGroupID` -/

theorem getGroupID_cons_skip (g : Game) (p : Ptr) (e : PlayerID × Ptr)
    (rest : List (PlayerID × Ptr)) (h : nearbyOther g p e = false) :
    getGroupID g (e :: rest) p = getGroupID g rest p := by
  obtain ⟨id, player⟩ := e
  by_cases hid : id = (g.heap p).PlayerID
  · simp [getGroupID, hid]
  · have hn : isNearby (g.heap player).X (g.heap player).Y (g.heap p).X (g.heap p).Y = false := by
      simpa [nearbyOther, hid] using h
    simp [getGroupID, hid, hn]

theorem getGroupID_cons_hit (g : Game) (p : Ptr) (e : PlayerID × Ptr)
    (rest : List (PlayerID × Ptr)) (h : nearbyOther g p e = true) :
    getGroupID g (e :: rest) p =
      ((g.heap e.2).GroupID,
        { g with heap := Function.update g.heap p
                   { g.heap p with GroupID := (g.heap e.2).GroupID } }) := by
  obtain ⟨id, player⟩ := e
  have h1 : id ≠ (g.heap p).PlayerID := by
    simp [nearbyOther] at h; exact h.1
  have h2 : isNearby (g.heap player).X (g.heap player).Y (g.heap p).X (g.heap p).Y = true := by
    simp [nearbyOther] at h; exact h.2
  simp [getGroupID, h1, h2]

theorem getGroupID_append_skip (g : Game) (p : Ptr) (pre rest : List (PlayerID × Ptr))
    (h : ∀ x ∈ pre, nearbyOther g p x = false) :
    getGroupID g (pre ++ rest) p = getGroupID g rest p := by
  induction pre with
  | nil => rfl
  | cons x pre ih =>
    rw [List.cons_append, getGroupID_cons_skip g p x _ (h x (List.mem_cons_self _ _))]
    exact ih (fun y hy => h y (List.mem_cons_of_mem _ hy))

theorem getGroupID_no_hit (g : Game) (p : Ptr) (order : List (PlayerID × Ptr))
    (h : ∀ x ∈ order, nearbyOther g p x = false) :
    getGroupID g order p = ((g.heap p).GroupID, g) := by
  have := getGroupID_append_skip g p order [] h
  simpa [getGroupID] using this

theorem exists_first_hit (f : PlayerID × Ptr → Bool) (l : List (PlayerID × Ptr))
    (h : ∃ e ∈ l, f e = true) :
    ∃ pre e post, l = pre ++ e :: post ∧ (∀ x ∈ pre, f x = false) ∧ f e = true := by
  induction l with
  | nil => simp at h
  | cons a l ih =>
    by_cases ha : f a = true
    · exact ⟨[], a, l, rfl, by simp, ha⟩
    · have hl : ∃ e ∈ l, f e = true := by
        obtain ⟨e, he, hfe⟩ := h
        rcases List.mem_cons.mp he with rfl | he
        · exact absurd hfe ha
        · exact ⟨e, he, hfe⟩
      obtain ⟨pre, e, post, rfl, hpre, hfe⟩ := ih hl
      refine ⟨a :: pre, e, post, rfl, ?_, hfe⟩
      intro x hx
      rcases List.mem_cons.mp hx with rfl | hx
      · simpa using ha
      · exact hpre x hx

/-- C1: in every registry state, for every participant `p` and every scan order of
the map: when some entry of the map is another participant nearby `p`, the scan
order splits at the first such entry `e`, `getGroupID` returns the group `e` has
before the call, and after the call the group stored in `p` is the returned value. -/
theorem C1_getGroupID_adopts_first_nearby (g : Game) (order : List (PlayerID × Ptr)) (p : Ptr)
    (hord : IsScanOrder g order) (hex : ∃ e ∈ g.Players, nearbyOther g p e = true) :
    ∃ pre e post, order = pre ++ e :: post ∧
      (∀ x ∈ pre, nearbyOther g p x = false) ∧ nearbyOther g p e = true ∧
      (getGroupID g order p).1 = (g.heap e.2).GroupID ∧
      ((getGroupID g order p).2.heap p).GroupID = (getGroupID g order p).1 := by
  have hex2 : ∃ e ∈ order, nearbyOther g p e = true := by
    obtain ⟨e, he, hn⟩ := hex
    exact ⟨e, (List.Perm.mem_iff hord).mpr he, hn⟩
  obtain ⟨pre, e, post, rfl, hpre, he⟩ := exists_first_hit (nearbyOther g p) order hex2
  refine ⟨pre, e, post, rfl, hpre, he, ?_, ?_⟩
  · rw [getGroupID_append_skip g p pre _ hpre, getGroupID_cons_hit g p e post he]
  · rw [getGroupID_append_skip g p pre _ hpre, getGroupID_cons_hit g p e post he]
    simp


theorem isNearby_self (x y : ℚ) : isNearby x y x y = true := by
  rw [isNearby_iff_exact]
  norm_num

theorem twoNear_heap :
    twoNear.heap 0 = { PlayerID := 0, GroupID := 0, X := 0, Y := 0 } ∧
    twoNear.heap 1 = { PlayerID := 1, GroupID := 1, X := float02, Y := float02 } := by
  constructor <;> rfl

theorem twoNear_nearby :
    nearbyOther twoNear 0 (1, 1) = true ∧ nearbyOther twoNear 1 (0, 0) = true := by
  obtain ⟨h0, h1⟩ := twoNear_heap
  constructor
  · rw [nearbyOther_eq_true_iff]
    simp only [h0, h1, float02_eq]
    norm_num [abs_lt]
  · rw [nearbyOther_eq_true_iff]
    simp only [h0, h1, float02_eq]
    norm_num [abs_lt]

/-- C1 (witness): in `twoNear`, scanning in the stored order, participant 0 adopts
the group of participant 1. -/
theorem C1_witness :
    IsScanOrder twoNear [(0, 0), (1, 1)] ∧
    (∃ e ∈ twoNear.Players, nearbyOther twoNear 0 e = true) ∧
    ∃ pre e post, [((0 : PlayerID), (0 : Ptr)), (1, 1)] = pre ++ e :: post ∧
      (∀ x ∈ pre, nearbyOther twoNear 0 x = false) ∧ nearbyOther twoNear 0 e = true ∧
      (getGroupID twoNear [(0, 0), (1, 1)] 0).1 = (twoNear.heap e.2).GroupID ∧
      ((getGroupID twoNear [(0, 0), (1, 1)] 0).2.heap 0).GroupID =
        (getGroupID twoNear [(0, 0), (1, 1)] 0).1 :=
  have hord : IsScanOrder twoNear [(0, 0), (1, 1)] := List.Perm.refl _
  have hex : ∃ e ∈ twoNear.Players, nearbyOther twoNear 0 e = true :=
    ⟨(1, 1), by simp [twoNear], twoNear_nearby.1⟩
  ⟨hord, hex, C1_getGroupID_adopts_first_nearby twoNear [(0, 0), (1, 1)] 0 hord hex⟩


theorem nearbyOther_self (g : Game) (p : Ptr) :
    nearbyOther g p ((g.heap p).PlayerID, p) = false := by
  simp [nearbyOther]

/-! ## The map -/

theorem mapGet_isSome_iff (m : List (PlayerID × Ptr)) (id : PlayerID) :
    (mapGet m id).isSome = true ↔ id ∈ m.map Prod.fst := by
  induction m with
  | nil => simp [mapGet]
  | cons e m ih =>
    obtain ⟨k, v⟩ := e
    by_cases hk : k = id
    · simp [mapGet, hk]
    · have hk2 : ¬ id = k := fun h => hk h.symm
      simp [mapGet, hk, hk2, ih]

theorem mapGet_eq_none_iff (m : List (PlayerID × Ptr)) (id : PlayerID) :
    mapGet m id = none ↔ id ∉ m.map Prod.fst := by
  rw [← mapGet_isSome_iff]
  cases mapGet m id <;> simp

/-- C3: in every registry state, for every participant `p`: `AddPlayer` returns
the error "player exists" exactly when the id of `p` is a key of the map, it
returns no other error, and whenever it returns an error the registry (heap, map
and counter) is exactly as before the call. -/
theorem C3_AddPlayer_duplicate (g : Game) (p : Ptr) :
    ((AddPlayer g p).1 = some GameError.playerExists ↔
      (g.heap p).PlayerID ∈ g.Players.map Prod.fst) ∧
    ((AddPlayer g p).1 = none ↔ (g.heap p).PlayerID ∉ g.Players.map Prod.fst) ∧
    ((AddPlayer g p).1 ≠ none → (AddPlayer g p).2 = g) := by
  cases hget : mapGet g.Players (g.heap p).PlayerID with
  | none =>
    have hnot := (mapGet_eq_none_iff _ _).mp hget
    simp [AddPlayer, hget, hnot]
  | some q =>
    have hin : (g.heap p).PlayerID ∈ g.Players.map Prod.fst :=
      (mapGet_isSome_iff _ _).mp (by simp [hget])
    simp [AddPlayer, hget, hin]


/-! ## The id counter -/

theorem genPlayerID_counter_of_lt (g : Game) (h0 : 0 ≤ g.playersCounter)
    (h1 : g.playersCounter < 100) :
    genPlayerID g =
      ((g.playersCounter, none), { g with playersCounter := g.playersCounter + 1 }) := by
  have hne : g.playersCounter ≠ MaxPlayers := by
    simp only [MaxPlayers]; omega
  have hw : wrapInt64 (g.playersCounter + 1) = g.playersCounter + 1 := by
    simp only [wrapInt64]; omega
  simp [genPlayerID, hne, hw]

theorem genPlayerID_full (g : Game) (h : g.playersCounter = 100) :
    genPlayerID g = ((-1, some GameError.maxPlayersReached), g) := by
  simp [genPlayerID, MaxPlayers, h]

theorem genTimes_counter (heap : Ptr → Player) (n : Nat) :
    (genTimes (newGame heap) n).playersCounter = min (n : Int) 100 := by
  induction n with
  | zero => simp [genTimes, newGame]
  | succ n ih =>
    rcases Nat.lt_or_ge n 100 with hlt | hge
    · have hc : (genTimes (newGame heap) n).playersCounter = n := by
        rw [ih]; omega
      have h0 : 0 ≤ (genTimes (newGame heap) n).playersCounter := by omega
      have h1 : (genTimes (newGame heap) n).playersCounter < 100 := by omega
      simp only [genTimes]
      rw [genPlayerID_counter_of_lt _ h0 h1]
      simp only [hc]
      push_cast
      omega
    · have hc : (genTimes (newGame heap) n).playersCounter = 100 := by
        rw [ih]; omega
      simp only [genTimes]
      rw [genPlayerID_full _ hc]
      simp only [hc]
      push_cast
      omega

/-- C4: starting from the fresh registry (counter 0), after `k` calls of
`genPlayerID` with `k < 100` the next call succeeds and returns the id `k`, which
lies in `[0, 100)`; after `n` calls with `n ≥ 100` the next call returns the
sentinel -1 with the error "max players reached" and changes nothing. -/
theorem C4_genPlayerID_capacity (heap : Ptr → Player) :
    (∀ k : Nat, k < 100 →
      (genPlayerID (genTimes (newGame heap) k)).1 = ((k : Int), none) ∧
      (0 : Int) ≤ k ∧ (k : Int) < MaxPlayers) ∧
    (∀ n : Nat, 100 ≤ n →
      (genPlayerID (genTimes (newGame heap) n)).1 = (-1, some GameError.maxPlayersReached) ∧
      (genPlayerID (genTimes (newGame heap) n)).2 = genTimes (newGame heap) n) := by
  constructor
  · intro k hk
    have hc : (genTimes (newGame heap) k).playersCounter = k := by
      rw [genTimes_counter]; omega
    have h0 : 0 ≤ (genTimes (newGame heap) k).playersCounter := by omega
    have h1 : (genTimes (newGame heap) k).playersCounter < 100 := by omega
    rw [genPlayerID_counter_of_lt _ h0 h1]
    refine ⟨by simp [hc], by omega, ?_⟩
    simp only [MaxPlayers]; omega
  · intro n hn
    have hc : (genTimes (newGame heap) n).playersCounter = 100 := by
      rw [genTimes_counter]; omega
    rw [genPlayerID_full _ hc]
    exact ⟨rfl, rfl⟩

theorem getGroupID_playersCounter (g : Game) (order : List (PlayerID × Ptr)) (p : Ptr) :
    (getGroupID g order p).2.playersCounter = g.playersCounter := by
  induction order with
  | nil => rfl
  | cons e rest ih =>
    cases hn : nearbyOther g p e with
    | false => rw [getGroupID_cons_skip g p e rest hn]; exact ih
    | true => rw [getGroupID_cons_hit g p e rest hn]

theorem getGroupID_Players (g : Game) (order : List (PlayerID × Ptr)) (p : Ptr) :
    (getGroupID g order p).2.Players = g.Players := by
  induction order with
  | nil => rfl
  | cons e rest ih =>
    cases hn : nearbyOther g p e with
    | false => rw [getGroupID_cons_skip g p e rest hn]; exact ih
    | true => rw [getGroupID_cons_hit g p e rest hn]

theorem AddPlayer_playersCounter (g : Game) (p : Ptr) :
    (AddPlayer g p).2.playersCounter = g.playersCounter := by
  unfold AddPlayer
  cases mapGet g.Players (g.heap p).PlayerID <;> rfl

theorem GetPlayer_state (g : Game) (id : PlayerID) : (GetPlayer g id).2 = g := by
  unfold GetPlayer
  cases mapGet g.Players id <;> rfl

theorem issuedIds_increasing (ops : List Op) :
    ∀ g : Game, 0 ≤ g.playersCounter → g.playersCounter ≤ 100 →
      (issuedIds g ops).Pairwise (fun a b : Int => a < b) ∧
      ∀ id : Int, id ∈ issuedIds g ops → g.playersCounter ≤ id ∧ id < 100 := by
  induction ops with
  | nil => intro g _ _; simp [issuedIds]
  | cons op ops ih =>
    intro g h0 h100
    cases op with
    | genPlayerID =>
      rcases lt_or_eq_of_le h100 with hlt | heq
      · have hgen := genPlayerID_counter_of_lt g h0 hlt
        have hiss : Op.issued g Op.genPlayerID = some g.playersCounter := by
          simp [Op.issued, hgen]
        have hnext : (Op.next g Op.genPlayerID).playersCounter = g.playersCounter + 1 := by
          simp [Op.next, hgen]
        obtain ⟨hp, hb⟩ := ih (Op.next g Op.genPlayerID) (by omega) (by omega)
        simp only [issuedIds, hiss]
        refine ⟨List.pairwise_cons.mpr ⟨?_, hp⟩, ?_⟩
        · intro id hid
          have := (hb id hid).1
          show g.playersCounter < id
          omega
        · intro id hid
          rcases List.mem_cons.mp hid with rfl | hid
          · exact ⟨le_refl _, hlt⟩
          · have := hb id hid
            omega
      · have hgen := genPlayerID_full g heq
        have hiss : Op.issued g Op.genPlayerID = none := by
          simp [Op.issued, hgen]
        have hnext : Op.next g Op.genPlayerID = g := by
          simp [Op.next, hgen]
        simp only [issuedIds, hiss, hnext]
        exact ih g h0 h100
    | AddPlayer p =>
      have hc : (Op.next g (Op.AddPlayer p)).playersCounter = g.playersCounter :=
        AddPlayer_playersCounter g p
      have := ih (Op.next g (Op.AddPlayer p)) (by omega) (by omega)
      simpa [issuedIds, Op.issued, hc] using this
    | GetPlayer id =>
      have hc : Op.next g (Op.GetPlayer id) = g := GetPlayer_state g id
      have := ih g h0 h100
      simpa [issuedIds, Op.issued, hc] using this
    | getGroupID order p =>
      have hc : (Op.next g (Op.getGroupID order p)).playersCounter = g.playersCounter :=
        getGroupID_playersCounter g order p
      have := ih (Op.next g (Op.getGroupID order p)) (by omega) (by omega)
      simpa [issuedIds, Op.issued, hc] using this

/-- C5: for every sequential trace of `genPlayerID`, `AddPlayer`, `GetPlayer` and
`getGroupID` calls (any arguments, any scan orders) run from the fresh registry,
the ids returned by the successful `genPlayerID` calls are pairwise distinct. -/
theorem C5_issued_ids_distinct (heap : Ptr → Player) (ops : List Op) :
    (issuedIds (newGame heap) ops).Nodup := by
  have h := (issuedIds_increasing ops (newGame heap) (by simp [newGame]) (by simp [newGame])).1
  exact h.imp (fun hab => Int.ne_of_lt hab)


/-! ## Lookup -/

theorem mapGet_mem (m : List (PlayerID × Ptr)) (id : PlayerID) (p : Ptr)
    (h : mapGet m id = some p) : (id, p) ∈ m := by
  induction m with
  | nil => simp [mapGet] at h
  | cons e m ih =>
    obtain ⟨k, v⟩ := e
    by_cases hk : k = id
    · simp [mapGet, hk] at h
      simp [hk, h]
    · simp [mapGet, hk] at h
      exact List.mem_cons_of_mem _ (ih h)

theorem mapGet_of_mem (m : List (PlayerID × Ptr)) (id : PlayerID) (p : Ptr)
    (hnd : (m.map Prod.fst).Nodup) (h : (id, p) ∈ m) : mapGet m id = some p := by
  induction m with
  | nil => simp at h
  | cons e m ih =>
    obtain ⟨k, v⟩ := e
    simp only [List.map_cons, List.nodup_cons] at hnd
    rcases List.mem_cons.mp h with heq | hmem
    · simp only [Prod.mk.injEq] at heq
      simp [mapGet, heq.1, heq.2]
    · have hne : k ≠ id := by
        intro hk
        apply hnd.1
        rw [hk]
        exact List.mem_map_of_mem Prod.fst hmem
      simp [mapGet, hne, ih hnd.2 hmem]

/-- C6: in every registry state, for every id and every scan order: the group
query (`GetPlayer`, then `getGroupID`) returns the error "unknown player" exactly
when the id is not a key of the map, and otherwise answers with the group computed
by `getGroupID`; a pointer returned by `GetPlayer` is an entry of the map under
that id, and it is the entry of that id when keys are unique; `GetPlayer` never
changes the registry. -/
theorem C6_group_query_not_found (g : Game) (order : List (PlayerID × Ptr)) (id : PlayerID) :
    ((GroupHandler g order id).1 = Except.error GameError.unknownPlayer ↔
      id ∉ g.Players.map Prod.fst) ∧
    ((GetPlayer g id).1 = Except.error GameError.unknownPlayer ↔
      id ∉ g.Players.map Prod.fst) ∧
    (id ∈ g.Players.map Prod.fst →
      ∃ p, (GetPlayer g id).1 = Except.ok p ∧ (id, p) ∈ g.Players ∧
        GroupHandler g order id = (Except.ok (getGroupID g order p).1, (getGroupID g order p).2)) ∧
    ((g.Players.map Prod.fst).Nodup →
      ∀ p, (id, p) ∈ g.Players → (GetPlayer g id).1 = Except.ok p) ∧
    (GetPlayer g id).2 = g := by
  refine ⟨?_, ?_, ?_, ?_, GetPlayer_state g id⟩
  · cases hget : mapGet g.Players id with
    | none =>
      have hnot := (mapGet_eq_none_iff _ _).mp hget
      simp only [GroupHandler, GetPlayer, hget]
      simpa using hnot
    | some q =>
      have hin : id ∈ g.Players.map Prod.fst := (mapGet_isSome_iff _ _).mp (by simp [hget])
      simp only [GroupHandler, GetPlayer, hget]
      simpa using hin
  · cases hget : mapGet g.Players id with
    | none =>
      have hnot := (mapGet_eq_none_iff _ _).mp hget
      simp only [GetPlayer, hget]
      simpa using hnot
    | some q =>
      have hin : id ∈ g.Players.map Prod.fst := (mapGet_isSome_iff _ _).mp (by simp [hget])
      simp only [GetPlayer, hget]
      simpa using hin
  · intro hin
    cases hget : mapGet g.Players id with
    | none => exact absurd hin ((mapGet_eq_none_iff _ _).mp hget)
    | some q =>
      refine ⟨q, ?_, mapGet_mem _ _ _ hget, ?_⟩
      · simp [GetPlayer, hget]
      · simp [GroupHandler, GetPlayer, hget]
  · intro hnd p hp
    simp [GetPlayer, mapGet_of_mem _ _ _ hnd hp]


/-! ## Repeating `getGroupID` -/

theorem threeAtOrigin_Players : threeAtOrigin.Players = [(0, 0), (1, 1), (2, 2)] := by
  simp [threeAtOrigin, AddPlayer, newGame, heapOf, mapGet, mapSet, Function.update]

theorem threeAtOrigin_heap :
    threeAtOrigin.heap 0 = { PlayerID := 0, GroupID := 0, X := 0, Y := 0 } ∧
    threeAtOrigin.heap 1 = { PlayerID := 1, GroupID := 1, X := 0, Y := 0 } ∧
    threeAtOrigin.heap 2 = { PlayerID := 2, GroupID := 2, X := 0, Y := 0 } := by
  simp [threeAtOrigin, AddPlayer, newGame, heapOf, mapGet, mapSet, Function.update]


theorem threeAtOrigin_WF : threeAtOrigin.WF := by
  obtain ⟨h0, h1, h2⟩ := threeAtOrigin_heap
  refine ⟨by simp [threeAtOrigin_Players], ?_⟩
  intro e he
  rw [threeAtOrigin_Players] at he
  simp at he
  rcases he with rfl | rfl | rfl <;> simp [h0, h1, h2]

/-- C7 (counterexample): the claim as stated fails.  In `threeAtOrigin` participant 0
has two nearby neighbours in different groups; a first call that meets participant 1
first returns 1, and a second call right after it that meets participant 2 first
returns 2. -/
theorem C7_counterexample :
    ¬ (∀ (g : Game) (o1 o2 : List (PlayerID × Ptr)) (p : Ptr),
        g.WF → g.Stored p → IsScanOrder g o1 → IsScanOrder (getGroupID g o1 p).2 o2 →
        (getGroupID (getGroupID g o1 p).2 o2 p).1 = (getGroupID g o1 p).1 ∧
        (getGroupID (getGroupID g o1 p).2 o2 p).2 = (getGroupID g o1 p).2) := by
  intro h
  obtain ⟨h0, h1, h2⟩ := threeAtOrigin_heap
  have hst : threeAtOrigin.Stored 0 := ⟨0, by simp [threeAtOrigin_Players]⟩
  have ho1 : IsScanOrder threeAtOrigin [(1, 1), (2, 2), (0, 0)] := by
    unfold IsScanOrder
    rw [threeAtOrigin_Players]
    decide
  have ho2 : IsScanOrder (getGroupID threeAtOrigin [(1, 1), (2, 2), (0, 0)] 0).2
      [(2, 2), (1, 1), (0, 0)] := by
    unfold IsScanOrder
    rw [getGroupID_Players, threeAtOrigin_Players]
    decide
  have hv := (h threeAtOrigin [(1, 1), (2, 2), (0, 0)] [(2, 2), (1, 1), (0, 0)] 0
    threeAtOrigin_WF hst ho1 ho2).1
  simp [getGroupID, h0, h1, h2, Function.update, isNearby_self] at hv


theorem nearbyOther_setGroup (g : Game) (p : Ptr) (v : GroupID) (e : PlayerID × Ptr) :
    nearbyOther { g with heap := Function.update g.heap p { g.heap p with GroupID := v } } p e =
      nearbyOther g p e := by
  obtain ⟨k, q⟩ := e
  by_cases he : q = p
  · subst he
    simp [nearbyOther]
  · simp [nearbyOther, Function.update, he]

theorem getGroupID_eq_find (g : Game) (order : List (PlayerID × Ptr)) (p : Ptr) :
    getGroupID g order p =
      match order.find? (nearbyOther g p) with
      | none => ((g.heap p).GroupID, g)
      | some e =>
        ((g.heap e.2).GroupID,
          { g with heap := Function.update g.heap p
                     { g.heap p with GroupID := (g.heap e.2).GroupID } }) := by
  induction order with
  | nil => rfl
  | cons x rest ih =>
    cases hx : nearbyOther g p x with
    | false =>
      rw [getGroupID_cons_skip g p x rest hx, ih]
      simp [List.find?, hx]
    | true =>
      rw [getGroupID_cons_hit g p x rest hx]
      simp [List.find?, hx]

theorem find_nearbyOther_setGroup (g : Game) (p : Ptr) (v : GroupID)
    (order : List (PlayerID × Ptr)) :
    order.find? (nearbyOther
        { g with heap := Function.update g.heap p { g.heap p with GroupID := v } } p) =
      order.find? (nearbyOther g p) := by
  have hf : nearbyOther
      { g with heap := Function.update g.heap p { g.heap p with GroupID := v } } p =
      nearbyOther g p := funext (nearbyOther_setGroup g p v)
  rw [hf]

/-- C7 (amended): in every registry state, for every participant `p`: when two
consecutive calls of `getGroupID` meet the same nearby other participant first in
their scans (in particular when both scan the map in the same order, or when nobody
or only one other participant is nearby), the second call returns the same group
value as the first and leaves the registry exactly as the first call left it. -/
theorem C7_getGroupID_idempotent_same_first (g : Game) (o1 o2 : List (PlayerID × Ptr))
    (p : Ptr) (hsame : o1.find? (nearbyOther g p) = o2.find? (nearbyOther g p)) :
    (getGroupID (getGroupID g o1 p).2 o2 p).1 = (getGroupID g o1 p).1 ∧
    (getGroupID (getGroupID g o1 p).2 o2 p).2 = (getGroupID g o1 p).2 ∧
    (getGroupID (getGroupID g o1 p).2 o1 p) = getGroupID g o1 p := by
  have key : ∀ o : List (PlayerID × Ptr),
      o1.find? (nearbyOther g p) = o.find? (nearbyOther g p) →
      getGroupID (getGroupID g o1 p).2 o p = getGroupID g o1 p := by
    intro o ho
    rw [getGroupID_eq_find g o1 p]
    cases h1 : o1.find? (nearbyOther g p) with
    | none =>
      rw [h1] at ho
      simp only
      rw [getGroupID_eq_find g o p, ← ho]
    | some e =>
      rw [h1] at ho
      simp only
      rw [getGroupID_eq_find _ o p, find_nearbyOther_setGroup, ← ho]
      simp only
      by_cases hep : e.2 = p
      · simp [hep]
      · simp [Function.update, hep]
  have h2 := key o2 hsame
  exact ⟨by rw [h2], by rw [h2], key o1 rfl⟩

/-- C7 (witness): in `twoNear` participant 0 has the single neighbour 1, which both
scan orders of the map meet first among the nearby ones. -/
theorem C7_witness :
    (getGroupID (getGroupID twoNear [(0, 0), (1, 1)] 0).2 [(1, 1), (0, 0)] 0).1 =
      (getGroupID twoNear [(0, 0), (1, 1)] 0).1 ∧
    (getGroupID (getGroupID twoNear [(0, 0), (1, 1)] 0).2 [(1, 1), (0, 0)] 0).2 =
      (getGroupID twoNear [(0, 0), (1, 1)] 0).2 ∧
    (getGroupID (getGroupID twoNear [(0, 0), (1, 1)] 0).2 [(0, 0), (1, 1)] 0) =
      getGroupID twoNear [(0, 0), (1, 1)] 0 :=
  C7_getGroupID_idempotent_same_first twoNear [(0, 0), (1, 1)] [(1, 1), (0, 0)] 0 (by
    have h1 : nearbyOther twoNear 0 (1, 1) = true := twoNear_nearby.1
    have h0 : nearbyOther twoNear 0 (0, 0) = false := by
      simp [nearbyOther, twoNear, heapOf]
    simp only [List.find?, h0, h1])

/-! ## Frame of `getGroupID` and the scan with a single candidate -/

theorem getGroupID_cases (g : Game) (order : List (PlayerID × Ptr)) (p : Ptr) :
    getGroupID g order p = ((g.heap p).GroupID, g) ∨
    ∃ e ∈ order, nearbyOther g p e = true ∧
      getGroupID g order p =
        ((g.heap e.2).GroupID,
          { g with heap := Function.update g.heap p
                     { g.heap p with GroupID := (g.heap e.2).GroupID } }) := by
  by_cases hex : ∃ e ∈ order, nearbyOther g p e = true
  · obtain ⟨pre, e, post, rfl, hpre, he⟩ := exists_first_hit (nearbyOther g p) order hex
    right
    refine ⟨e, by simp, he, ?_⟩
    rw [getGroupID_append_skip g p pre _ hpre, getGroupID_cons_hit g p e post he]
  · left
    apply getGroupID_no_hit
    intro x hx
    cases hv : nearbyOther g p x with
    | false => rfl
    | true => exact absurd ⟨x, hx, hv⟩ hex

theorem getGroupID_heap_frame (g : Game) (order : List (PlayerID × Ptr)) (p q : Ptr) :
    ((getGroupID g order p).2.heap q).PlayerID = (g.heap q).PlayerID ∧
    ((getGroupID g order p).2.heap q).X = (g.heap q).X ∧
    ((getGroupID g order p).2.heap q).Y = (g.heap q).Y ∧
    (q ≠ p → (getGroupID g order p).2.heap q = g.heap q) := by
  rcases getGroupID_cases g order p with h | ⟨e, _, _, h⟩
  · rw [h]; simp
  · rw [h]
    by_cases hq : q = p
    · subst hq; simp
    · simp [Function.update, hq]

theorem getGroupID_single_candidate (g : Game) (order : List (PlayerID × Ptr)) (p : Ptr)
    (e0 : PlayerID × Ptr) (hmem : e0 ∈ order) (hhit : nearbyOther g p e0 = true)
    (honly : ∀ x ∈ order, nearbyOther g p x = true → x = e0) :
    (getGroupID g order p).1 = (g.heap e0.2).GroupID := by
  obtain ⟨pre, e, post, rfl, hpre, he⟩ :=
    exists_first_hit (nearbyOther g p) order ⟨e0, hmem, hhit⟩
  have hee : e = e0 := honly e (by simp) he
  rw [getGroupID_append_skip g p pre _ hpre, getGroupID_cons_hit g p e post he, hee]


/-! ## The three participants A, B and C -/

theorem abcGame_Players (a b c : PlayerID) (hab : a ≠ b) (hac : a ≠ c) (hbc : b ≠ c) :
    (abcGame a b c).Players = [(a, 0), (b, 1), (c, 2)] := by
  simp [abcGame, AddPlayer, newGame, abcHeap, heapOf, mapGet, mapSet, Function.update,
    hab, hac, hbc]

theorem abcGame_heap (a b c : PlayerID) (hab : a ≠ b) (hac : a ≠ c) (hbc : b ≠ c) :
    (abcGame a b c).heap 0 = { PlayerID := a, GroupID := a, X := 0, Y := 0 } ∧
    (abcGame a b c).heap 1 = { PlayerID := b, GroupID := b, X := float04, Y := float04 } ∧
    (abcGame a b c).heap 2 = { PlayerID := c, GroupID := c, X := float08, Y := float08 } := by
  simp [abcGame, AddPlayer, newGame, abcHeap, heapOf, mapGet, mapSet, Function.update,
    hab, hac, hbc]

/-- What no `getGroupID` call changes in the states of `AbcReach`. -/
theorem AbcReach_invariant (a b c : PlayerID) (hab : a ≠ b) (hac : a ≠ c) (hbc : b ≠ c)
    (g : Game) (hg : AbcReach a b c g) :
    g.Players = [(a, 0), (b, 1), (c, 2)] ∧
    ((g.heap 0).PlayerID = a ∧ (g.heap 0).X = 0 ∧ (g.heap 0).Y = 0) ∧
    ((g.heap 1).PlayerID = b ∧ (g.heap 1).X = float04 ∧ (g.heap 1).Y = float04) ∧
    ((g.heap 2).PlayerID = c ∧ (g.heap 2).X = float08 ∧ (g.heap 2).Y = float08) := by
  induction hg with
  | init =>
    obtain ⟨h0, h1, h2⟩ := abcGame_heap a b c hab hac hbc
    refine ⟨abcGame_Players a b c hab hac hbc, ?_, ?_, ?_⟩
    · rw [h0]; simp
    · rw [h1]; simp
    · rw [h2]; simp
  | call g order p _ _ _ ih =>
    obtain ⟨hP, hA, hB, hC⟩ := ih
    have f0 := getGroupID_heap_frame g order p 0
    have f1 := getGroupID_heap_frame g order p 1
    have f2 := getGroupID_heap_frame g order p 2
    refine ⟨by rw [getGroupID_Players, hP], ?_, ?_, ?_⟩
    · rw [f0.1, f0.2.1, f0.2.2.1]; exact hA
    · rw [f1.1, f1.2.1, f1.2.2.1]; exact hB
    · rw [f2.1, f2.2.1, f2.2.2.1]; exact hC

theorem abc_scan_C (a b c : PlayerID) (hab : a ≠ b) (hac : a ≠ c) (hbc : b ≠ c)
    (g : Game) (hg : AbcReach a b c g) (order : List (PlayerID × Ptr))
    (hord : IsScanOrder g order) :
    (getGroupID g order 2).1 = (g.heap 1).GroupID := by
  obtain ⟨hP, hA, hB, hC⟩ := AbcReach_invariant a b c hab hac hbc g hg
  have hmem : ∀ x, x ∈ order ↔ x = (a, 0) ∨ x = (b, 1) ∨ x = (c, 2) := by
    intro x
    rw [List.Perm.mem_iff hord, hP]
    simp
  have hB1 : nearbyOther g 2 (b, 1) = true := by
    rw [nearbyOther_eq_true_iff]
    simp only [hB.2.1, hB.2.2, hC.1, hC.2.1, hC.2.2, float04_eq, float08_eq]
    refine ⟨hbc, ?_, ?_⟩ <;> norm_num [abs_lt]
  have hA0 : nearbyOther g 2 (a, 0) = false := by
    rw [Bool.eq_false_iff, Ne, nearbyOther_eq_true_iff]
    simp only [hA.2.1, hA.2.2, hC.1, hC.2.1, hC.2.2, float08_eq]
    intro hn
    have h1 := hn.2.1
    norm_num [abs_lt] at h1
  have hC2 : nearbyOther g 2 (c, 2) = false := by
    simp [nearbyOther, hC.1]
  apply getGroupID_single_candidate g order 2 (b, 1) ((hmem _).mpr (Or.inr (Or.inl rfl))) hB1
  intro x hx hhit
  rcases (hmem x).mp hx with rfl | rfl | rfl
  · rw [hA0] at hhit; exact absurd hhit (by simp)
  · rfl
  · rw [hC2] at hhit; exact absurd hhit (by simp)


/-- C8 (counterexample): the claim as stated fails.  With ids 0, 1, 2 for A, B, C:
after one call `getGroupID(B)` that meets A first, B is in group 0, the group of A;
the call `getGroupID(C)` that follows returns 0, which is the group of A. -/
theorem C8_counterexample :
    ¬ (∀ (a b c : PlayerID), a ≠ b → a ≠ c → b ≠ c →
        ∀ g : Game, AbcReach a b c g →
        ∀ order : List (PlayerID × Ptr), IsScanOrder g order →
        (getGroupID g order 2).1 ≠ (g.heap 0).GroupID) := by
  intro h
  have hab : (0 : PlayerID) ≠ 1 := by decide
  have hac : (0 : PlayerID) ≠ 2 := by decide
  have hbc : (1 : PlayerID) ≠ 2 := by decide
  obtain ⟨h0, h1, h2⟩ := abcGame_heap 0 1 2 hab hac hbc
  have hP := abcGame_Players 0 1 2 hab hac hbc
  have hord0 : IsScanOrder (abcGame 0 1 2) [(0, 0), (1, 1), (2, 2)] := by
    unfold IsScanOrder; rw [hP]
  have hreach : AbcReach 0 1 2 (getGroupID (abcGame 0 1 2) [(0, 0), (1, 1), (2, 2)] 1).2 :=
    AbcReach.call _ _ 1 AbcReach.init hord0 (Or.inr (Or.inl rfl))
  have hord1 : IsScanOrder (getGroupID (abcGame 0 1 2) [(0, 0), (1, 1), (2, 2)] 1).2
      [(0, 0), (1, 1), (2, 2)] := by
    unfold IsScanOrder; rw [getGroupID_Players, hP]
  have hne := h 0 1 2 hab hac hbc _ hreach _ hord1
  rw [abc_scan_C 0 1 2 hab hac hbc _ hreach _ hord1] at hne
  have hhit : nearbyOther (abcGame 0 1 2) 1 (0, 0) = true := by
    rw [nearbyOther_eq_true_iff]
    simp only [h0, h1, float04_eq]
    norm_num [abs_lt]
  apply hne
  rw [getGroupID_cons_hit _ _ _ _ hhit]
  simp [Function.update, h0]

/-- C8 (amended): for A, B and C registered under pairwise distinct ids, in every
state reached by any sequence of `getGroupID` calls on A, B and C and for every scan
order, `getGroupID(C)` returns the group currently stored in B (C never adopts from
A, which is not nearby C); the value is the group of A exactly when B and A
currently store the same group.  In the state right after the three insertions it is
the id of B, which differs from the group of A. -/
theorem C8_getGroupID_C_returns_group_of_B (a b c : PlayerID)
    (hab : a ≠ b) (hac : a ≠ c) (hbc : b ≠ c)
    (g : Game) (hg : AbcReach a b c g)
    (order : List (PlayerID × Ptr)) (hord : IsScanOrder g order) :
    (getGroupID g order 2).1 = (g.heap 1).GroupID ∧
    ((getGroupID g order 2).1 = (g.heap 0).GroupID ↔
      (g.heap 1).GroupID = (g.heap 0).GroupID) ∧
    (∀ order0, IsScanOrder (abcGame a b c) order0 →
      (getGroupID (abcGame a b c) order0 2).1 = b ∧
      (getGroupID (abcGame a b c) order0 2).1 ≠ ((abcGame a b c).heap 0).GroupID) := by
  have hres := abc_scan_C a b c hab hac hbc g hg order hord
  refine ⟨hres, by rw [hres], ?_⟩
  intro order0 hord0
  obtain ⟨h0, h1, _⟩ := abcGame_heap a b c hab hac hbc
  rw [abc_scan_C a b c hab hac hbc _ AbcReach.init order0 hord0, h0, h1]
  exact ⟨rfl, fun hba => hab hba.symm⟩

/-- C8 (witness): ids 0, 1, 2, the state right after the three insertions, scanned
in the stored order. -/
theorem C8_witness :
    (getGroupID (abcGame 0 1 2) (abcGame 0 1 2).Players 2).1 =
      ((abcGame 0 1 2).heap 1).GroupID ∧
    ((getGroupID (abcGame 0 1 2) (abcGame 0 1 2).Players 2).1 =
        ((abcGame 0 1 2).heap 0).GroupID ↔
      ((abcGame 0 1 2).heap 1).GroupID = ((abcGame 0 1 2).heap 0).GroupID) ∧
    (∀ order0, IsScanOrder (abcGame 0 1 2) order0 →
      (getGroupID (abcGame 0 1 2) order0 2).1 = 1 ∧
      (getGroupID (abcGame 0 1 2) order0 2).1 ≠ ((abcGame 0 1 2).heap 0).GroupID) :=
  C8_getGroupID_C_returns_group_of_B 0 1 2 (by decide) (by decide) (by decide)
    (abcGame 0 1 2) AbcReach.init (abcGame 0 1 2).Players (List.Perm.refl _)


/-! ## The proximity predicate -/

theorem isNearby_iff (x1 y1 x2 y2 : ℚ) :
    isNearby x1 y1 x2 y2 = true ↔
      |roundF64 (x1 - x2)| < 1 / 2 ∧ |roundF64 (y1 - y2)| < 1 / 2 := by
  simp only [isNearby, GroupingThreshold, Bool.and_eq_true, decide_eq_true_eq]

theorem isNearby_comm (x1 y1 x2 y2 : ℚ) : isNearby x1 y1 x2 y2 = isNearby x2 y2 x1 y1 := by
  rw [Bool.eq_iff_iff, isNearby_iff_exact, isNearby_iff_exact, abs_sub_comm x1 x2,
    abs_sub_comm y1 y2]

theorem isNearby_false_of_far (x1 y1 x2 y2 : ℚ)
    (h : 1 / 2 ≤ |x1 - x2| ∨ 1 / 2 ≤ |y1 - y2|) : isNearby x1 y1 x2 y2 = false := by
  rw [Bool.eq_false_iff]
  intro hn
  have hlt := (isNearby_iff_exact x1 y1 x2 y2).mp hn
  rcases h with h | h
  · linarith [hlt.1]
  · linarith [hlt.2]

/-! ## Registries with exactly two participants -/

theorem two_scan (g : Game) (a b : PlayerID) (pa pb : Ptr) (order : List (PlayerID × Ptr))
    (hab : a ≠ b) (hP : g.Players.Perm [(a, pa), (b, pb)])
    (hida : (g.heap pa).PlayerID = a)
    (hord : IsScanOrder g order) :
    (isNearby (g.heap pb).X (g.heap pb).Y (g.heap pa).X (g.heap pa).Y = true →
      (getGroupID g order pa).1 = (g.heap pb).GroupID) ∧
    (isNearby (g.heap pb).X (g.heap pb).Y (g.heap pa).X (g.heap pa).Y = false →
      getGroupID g order pa = ((g.heap pa).GroupID, g)) := by
  have hmem : ∀ x, x ∈ order ↔ x = (a, pa) ∨ x = (b, pb) := by
    intro x
    rw [List.Perm.mem_iff hord, List.Perm.mem_iff hP]
    simp
  have hself : nearbyOther g pa (a, pa) = false := by
    simp [nearbyOther, hida]
  constructor
  · intro hn
    have hhit : nearbyOther g pa (b, pb) = true := by
      have hba : b ≠ a := fun h => hab h.symm
      simp [nearbyOther, hida, hn, hba]
    apply getGroupID_single_candidate g order pa (b, pb) ((hmem _).mpr (Or.inr rfl)) hhit
    intro x hx hx1
    rcases (hmem x).mp hx with rfl | rfl
    · rw [hself] at hx1; exact absurd hx1 (by simp)
    · rfl
  · intro hn
    apply getGroupID_no_hit
    intro x hx
    rcases (hmem x).mp hx with rfl | rfl
    · exact hself
    · simp [nearbyOther, hn]

theorem twoRounding_Players : twoRounding.Players = [(0, 0), (1, 1)] := by
  simp [twoRounding, AddPlayer, newGame, heapOf, mapGet, mapSet, Function.update]

theorem twoRounding_heap :
    twoRounding.heap 0 = { PlayerID := 0, GroupID := 0, X := 1 / 2, Y := 0 } ∧
    twoRounding.heap 1 =
      { PlayerID := 1, GroupID := 1, X := 1 / 1152921504606846976, Y := 0 } := by
  simp [twoRounding, AddPlayer, newGame, heapOf, mapGet, mapSet, Function.update]

theorem twoRounding_Reachable : Reachable twoRounding :=
  Reachable.AddPlayer _ 1 (Reachable.AddPlayer _ 0 (Reachable.fresh _))

theorem twoRounding_not_nearby :
    isNearby (1 / 1152921504606846976) 0 (1 / 2) 0 = false ∧
    isNearby (1 / 2) 0 (1 / 1152921504606846976) 0 = false := by
  constructor
  · rw [Bool.eq_false_iff, Ne, isNearby_iff_exact]
    intro hn
    have h1 := hn.1
    norm_num [abs_lt] at h1
  · rw [Bool.eq_false_iff, Ne, isNearby_iff_exact]
    intro hn
    have h1 := hn.1
    norm_num [abs_lt] at h1

/-- C9 (counterexample): the claim as stated fails.  In `twoRounding`, reached by two
`AddPlayer` calls, A = (0.5, 0) and B = (2^-60, 0) are float64 points with
`|xA - xB| = 0.5 - 2^-60 < 0.5` and `|yA - yB| = 0`; the float64 subtraction rounds
`xB - xA` to -0.5, `isNearby` is false, and `getGroupID(A)` returns the group 0 of A,
not the group 1 of B. -/
theorem C9_counterexample :
    ¬ (∀ (g : Game) (a b : PlayerID) (pa pb : Ptr) (oA oB : List (PlayerID × Ptr)),
        Reachable g → a ≠ b → g.Players.Perm [(a, pa), (b, pb)] →
        (g.heap pa).PlayerID = a → (g.heap pb).PlayerID = b →
        IsFloat64 (g.heap pa).X → IsFloat64 (g.heap pa).Y →
        IsFloat64 (g.heap pb).X → IsFloat64 (g.heap pb).Y →
        |(g.heap pa).X - (g.heap pb).X| < 1 / 2 →
        |(g.heap pa).Y - (g.heap pb).Y| < 1 / 2 →
        IsScanOrder g oA → IsScanOrder g oB →
        (getGroupID g oA pa).1 = (g.heap pb).GroupID ∧
        (getGroupID g oB pb).1 = (g.heap pa).GroupID) := by
  intro h
  obtain ⟨h0, h1⟩ := twoRounding_heap
  have hP : twoRounding.Players.Perm [(0, 0), (1, 1)] := by
    rw [twoRounding_Players]
  have hord : IsScanOrder twoRounding [(0, 0), (1, 1)] := by
    unfold IsScanOrder
    rw [twoRounding_Players]
  have hres := (h twoRounding 0 1 0 1 [(0, 0), (1, 1)] [(0, 0), (1, 1)]
    twoRounding_Reachable (by decide) hP (by rw [h0]) (by rw [h1])
    (by rw [h0]; exact roundF64_half) (by rw [h0]; exact roundF64_zero)
    (by rw [h1]; exact roundF64_two_pow_neg_sixty) (by rw [h1]; exact roundF64_zero)
    (by rw [h0, h1]; norm_num [abs_lt]) (by rw [h0, h1]; norm_num) hord hord).1
  have hown := (two_scan twoRounding 0 1 0 1 [(0, 0), (1, 1)] (by decide) hP (by rw [h0])
    hord).2 (by rw [h0, h1]; exact twoRounding_not_nearby.1)
  rw [hown, h0, h1] at hres
  simp at hres

/-- C9 (amended): `isNearby` is symmetric in its two points; and in every registry
holding exactly two participants A and B, stored under their distinct ids, whose
float64 differences satisfy `|xA - xB| < 0.5` and `|yA - yB| < 0.5` (the test the
code makes; in exact arithmetic, both differences below `0.5 - 2^-55`), for every
scan order `getGroupID(A)` returns the group currently stored in B and
`getGroupID(B)` returns the group currently stored in A. -/
theorem C9_two_nearby_adopt_each_other (g : Game) (a b : PlayerID) (pa pb : Ptr)
    (oA oB : List (PlayerID × Ptr))
    (hab : a ≠ b) (hP : g.Players.Perm [(a, pa), (b, pb)])
    (hida : (g.heap pa).PlayerID = a) (hidb : (g.heap pb).PlayerID = b)
    (hx : |roundF64 ((g.heap pa).X - (g.heap pb).X)| < 1 / 2)
    (hy : |roundF64 ((g.heap pa).Y - (g.heap pb).Y)| < 1 / 2)
    (hoA : IsScanOrder g oA) (hoB : IsScanOrder g oB) :
    (∀ x1 y1 x2 y2 : ℚ, isNearby x1 y1 x2 y2 = isNearby x2 y2 x1 y1) ∧
    (getGroupID g oA pa).1 = (g.heap pb).GroupID ∧
    (getGroupID g oB pb).1 = (g.heap pa).GroupID ∧
    (|(g.heap pa).X - (g.heap pb).X| < 1 / 2 - 1 / 36028797018963968 ∧
      |(g.heap pa).Y - (g.heap pb).Y| < 1 / 2 - 1 / 36028797018963968) := by
  have hn : isNearby (g.heap pa).X (g.heap pa).Y (g.heap pb).X (g.heap pb).Y = true :=
    (isNearby_iff _ _ _ _).mpr ⟨hx, hy⟩
  have hP2 : g.Players.Perm [(b, pb), (a, pa)] := hP.trans (List.Perm.swap _ _ _)
  refine ⟨isNearby_comm, ?_, ?_, (isNearby_iff_exact _ _ _ _).mp hn⟩
  · exact (two_scan g a b pa pb oA hab hP hida hoA).1 (by rw [isNearby_comm]; exact hn)
  · exact (two_scan g b a pb pa oB (fun h => hab h.symm) hP2 hidb hoB).1 hn

/-- C9 (witness): A = (0,0) and B = (0.2,0.2) in `twoNear`, scanned in either order. -/
theorem C9_witness :
    (∀ x1 y1 x2 y2 : ℚ, isNearby x1 y1 x2 y2 = isNearby x2 y2 x1 y1) ∧
    (getGroupID twoNear [(0, 0), (1, 1)] 0).1 = (twoNear.heap 1).GroupID ∧
    (getGroupID twoNear [(1, 1), (0, 0)] 1).1 = (twoNear.heap 0).GroupID ∧
    (|(twoNear.heap 0).X - (twoNear.heap 1).X| < 1 / 2 - 1 / 36028797018963968 ∧
      |(twoNear.heap 0).Y - (twoNear.heap 1).Y| < 1 / 2 - 1 / 36028797018963968) :=
  C9_two_nearby_adopt_each_other twoNear 0 1 0 1 [(0, 0), (1, 1)] [(1, 1), (0, 0)]
    (by decide) (List.Perm.refl _) rfl rfl
    (by
      rw [abs_roundF64_lt_half_iff, twoNear_heap.1, twoNear_heap.2]
      simp only [float02_eq]
      norm_num [abs_lt])
    (by
      rw [abs_roundF64_lt_half_iff, twoNear_heap.1, twoNear_heap.2]
      simp only [float02_eq]
      norm_num [abs_lt])
    (List.Perm.refl _) (List.Perm.swap _ _ _)

/-- C10 (counterexample): the claim as stated fails.  The float64 points (0.5, 0)
and (2^-60, 0) differ by `0.5 - 2^-60 < 0.5` on the x axis and by 0 on the y axis,
yet `isNearby` is false for them: the float64 subtraction rounds the x difference
to 0.5. -/
theorem C10_counterexample :
    ¬ (∀ x1 y1 x2 y2 : ℚ, IsFloat64 x1 → IsFloat64 y1 → IsFloat64 x2 → IsFloat64 y2 →
        (isNearby x1 y1 x2 y2 = true ↔ |x1 - x2| < 1 / 2 ∧ |y1 - y2| < 1 / 2)) := by
  intro h
  have hiff := h (1 / 2) 0 (1 / 1152921504606846976) 0 roundF64_half roundF64_zero
    roundF64_two_pow_neg_sixty roundF64_zero
  have htrue := hiff.mpr ⟨by norm_num [abs_lt], by norm_num⟩
  rw [twoRounding_not_nearby.2] at htrue
  simp at htrue

/-- C10 (amended): `isNearby` holds exactly when the float64 differences satisfy
`|x1 - x2| < 0.5` and `|y1 - y2| < 0.5`, both strict, which is exactly when the
exact differences are below `0.5 - 2^-55` on both axes; so it is false as soon as
the difference on one axis is 0.5 or more; and in every registry holding exactly two
participants A and B, stored under their distinct ids, whose difference on at least
one axis is 0.5 or more, for every scan order `getGroupID` of either one returns the
group stored in it and leaves the registry (that group included) exactly as it
was. -/
theorem C10_strict_threshold (g : Game) (a b : PlayerID) (pa pb : Ptr)
    (oA oB : List (PlayerID × Ptr))
    (hab : a ≠ b) (hP : g.Players.Perm [(a, pa), (b, pb)])
    (hida : (g.heap pa).PlayerID = a) (hidb : (g.heap pb).PlayerID = b)
    (hfar : 1 / 2 ≤ |(g.heap pa).X - (g.heap pb).X| ∨ 1 / 2 ≤ |(g.heap pa).Y - (g.heap pb).Y|)
    (hoA : IsScanOrder g oA) (hoB : IsScanOrder g oB) :
    (∀ x1 y1 x2 y2 : ℚ,
      isNearby x1 y1 x2 y2 = true ↔
        |roundF64 (x1 - x2)| < 1 / 2 ∧ |roundF64 (y1 - y2)| < 1 / 2) ∧
    (∀ x1 y1 x2 y2 : ℚ,
      isNearby x1 y1 x2 y2 = true ↔
        |x1 - x2| < 1 / 2 - 1 / 36028797018963968 ∧
        |y1 - y2| < 1 / 2 - 1 / 36028797018963968) ∧
    (∀ x1 y1 x2 y2 : ℚ, (1 / 2 ≤ |x1 - x2| ∨ 1 / 2 ≤ |y1 - y2|) →
      isNearby x1 y1 x2 y2 = false) ∧
    getGroupID g oA pa = ((g.heap pa).GroupID, g) ∧
    getGroupID g oB pb = ((g.heap pb).GroupID, g) := by
  have hn : isNearby (g.heap pa).X (g.heap pa).Y (g.heap pb).X (g.heap pb).Y = false :=
    isNearby_false_of_far _ _ _ _ hfar
  have hP2 : g.Players.Perm [(b, pb), (a, pa)] := hP.trans (List.Perm.swap _ _ _)
  refine ⟨isNearby_iff, isNearby_iff_exact, isNearby_false_of_far, ?_, ?_⟩
  · exact (two_scan g a b pa pb oA hab hP hida hoA).2 (by rw [isNearby_comm]; exact hn)
  · exact (two_scan g b a pb pa oB (fun h => hab h.symm) hP2 hidb hoB).2 hn

/-- C10 (witness): A = (0,0) and B = (0.5,0) in `twoAtThreshold`, exactly 0.5 apart
on the x axis. -/
theorem C10_witness :
    (∀ x1 y1 x2 y2 : ℚ,
      isNearby x1 y1 x2 y2 = true ↔
        |roundF64 (x1 - x2)| < 1 / 2 ∧ |roundF64 (y1 - y2)| < 1 / 2) ∧
    (∀ x1 y1 x2 y2 : ℚ,
      isNearby x1 y1 x2 y2 = true ↔
        |x1 - x2| < 1 / 2 - 1 / 36028797018963968 ∧
        |y1 - y2| < 1 / 2 - 1 / 36028797018963968) ∧
    (∀ x1 y1 x2 y2 : ℚ, (1 / 2 ≤ |x1 - x2| ∨ 1 / 2 ≤ |y1 - y2|) →
      isNearby x1 y1 x2 y2 = false) ∧
    getGroupID twoAtThreshold [(0, 0), (1, 1)] 0 =
      ((twoAtThreshold.heap 0).GroupID, twoAtThreshold) ∧
    getGroupID twoAtThreshold [(1, 1), (0, 0)] 1 =
      ((twoAtThreshold.heap 1).GroupID, twoAtThreshold) :=
  C10_strict_threshold twoAtThreshold 0 1 0 1 [(0, 0), (1, 1)] [(1, 1), (0, 0)]
    (by decide) (List.Perm.refl _) rfl rfl
    (Or.inl (by simp only [twoAtThreshold, heapOf]; norm_num [le_abs]))
    (List.Perm.refl _) (List.Perm.swap _ _ _)

/-! ## Insertion -/

theorem mapSet_of_not_mem (m : List (PlayerID × Ptr)) (k : PlayerID) (v : Ptr)
    (h : k ∉ m.map Prod.fst) : mapSet m k v = m ++ [(k, v)] := by
  induction m with
  | nil => rfl
  | cons e m ih =>
    obtain ⟨k1, v1⟩ := e
    simp only [List.map_cons, List.mem_cons, not_or] at h
    have hne : k1 ≠ k := fun hk => h.1 hk.symm
    simp [mapSet, hne, ih h.2]

theorem AddPlayer_ok (g : Game) (p : Ptr) (h : (g.heap p).PlayerID ∉ g.Players.map Prod.fst) :
    AddPlayer g p =
      (none,
        { g with
          heap := Function.update g.heap p { g.heap p with GroupID := (g.heap p).PlayerID }
          Players := g.Players ++ [((g.heap p).PlayerID, p)] }) := by
  have hget := (mapGet_eq_none_iff _ _).mpr h
  simp [AddPlayer, hget, mapSet_of_not_mem _ _ _ h]

theorem AddPlayer_fail (g : Game) (p : Ptr) (h : (g.heap p).PlayerID ∈ g.Players.map Prod.fst) :
    AddPlayer g p = (some GameError.playerExists, g) := by
  cases hget : mapGet g.Players (g.heap p).PlayerID with
  | none => exact absurd h ((mapGet_eq_none_iff _ _).mp hget)
  | some q => simp [AddPlayer, hget]

theorem WF_not_stored_of_new_id (g : Game) (hwf : g.WF) (p : Ptr)
    (h : (g.heap p).PlayerID ∉ g.Players.map Prod.fst) : ∀ e ∈ g.Players, e.2 ≠ p := by
  intro e he hep
  apply h
  have hid := hwf.2 e he
  rw [hep] at hid
  rw [hid]
  exact List.mem_map_of_mem Prod.fst he

theorem AddPlayer_WF (g : Game) (hwf : g.WF) (p : Ptr) : (AddPlayer g p).2.WF := by
  by_cases h : (g.heap p).PlayerID ∈ g.Players.map Prod.fst
  · rw [AddPlayer_fail g p h]; exact hwf
  · rw [AddPlayer_ok g p h]
    have hns := WF_not_stored_of_new_id g hwf p h
    constructor
    · simp only [List.map_append, List.map_cons, List.map_nil]
      rw [List.nodup_append]
      refine ⟨hwf.1, by simp, ?_⟩
      intro a ha hb
      simp only [List.mem_singleton] at hb
      rw [hb] at ha
      exact h ha
    · intro e he
      simp only [List.mem_append, List.mem_singleton] at he
      rcases he with he | rfl
      · have hne : e.2 ≠ p := hns e he
        simp only [Function.update, hne, dite_false]
        exact hwf.2 e he
      · simp [Function.update]

theorem getGroupID_WF (g : Game) (hwf : g.WF) (order : List (PlayerID × Ptr)) (p : Ptr) :
    (getGroupID g order p).2.WF := by
  constructor
  · rw [getGroupID_Players]; exact hwf.1
  · intro e he
    rw [getGroupID_Players] at he
    rw [(getGroupID_heap_frame g order p e.2).1]
    exact hwf.2 e he

theorem genPlayerID_frame (g : Game) :
    (genPlayerID g).2.heap = g.heap ∧ (genPlayerID g).2.Players = g.Players := by
  unfold genPlayerID
  split <;> exact ⟨rfl, rfl⟩

theorem Reachable_WF (g : Game) (hg : Reachable g) : g.WF := by
  induction hg with
  | fresh heap => exact ⟨by simp [newGame], by simp [newGame]⟩
  | genPlayerID g _ ih =>
    obtain ⟨hh, hp⟩ := genPlayerID_frame g
    exact ⟨by rw [hp]; exact ih.1, by rw [hp, hh]; exact ih.2⟩
  | AddPlayer g p _ ih => exact AddPlayer_WF g ih p
  | GetPlayer g id _ ih => rw [GetPlayer_state]; exact ih
  | getGroupID g order p _ _ ih => exact getGroupID_WF g ih order p


/-! ## Invariants of the reachable states -/

theorem AddPlayer_heap_frame (g : Game) (p q : Ptr) :
    ((AddPlayer g p).2.heap q).PlayerID = (g.heap q).PlayerID ∧
    ((AddPlayer g p).2.heap q).X = (g.heap q).X ∧
    ((AddPlayer g p).2.heap q).Y = (g.heap q).Y ∧
    (q ≠ p → (AddPlayer g p).2.heap q = g.heap q) := by
  by_cases h : (g.heap p).PlayerID ∈ g.Players.map Prod.fst
  · rw [AddPlayer_fail g p h]; simp
  · rw [AddPlayer_ok g p h]
    by_cases hq : q = p
    · subst hq; simp
    · simp [Function.update, hq]

theorem nearbyOther_congr (g g1 : Game)
    (h : ∀ q, (g1.heap q).PlayerID = (g.heap q).PlayerID ∧
      (g1.heap q).X = (g.heap q).X ∧ (g1.heap q).Y = (g.heap q).Y)
    (p : Ptr) (e : PlayerID × Ptr) : nearbyOther g1 p e = nearbyOther g p e := by
  simp [nearbyOther, (h p).1, (h p).2.1, (h p).2.2, (h e.2).2.1, (h e.2).2.2]

theorem nearbyOther_AddPlayer (g : Game) (q p : Ptr) (e : PlayerID × Ptr) :
    nearbyOther (AddPlayer g q).2 p e = nearbyOther g p e :=
  nearbyOther_congr g _ (fun r => ⟨(AddPlayer_heap_frame g q r).1,
    (AddPlayer_heap_frame g q r).2.1, (AddPlayer_heap_frame g q r).2.2.1⟩) p e

theorem nearbyOther_getGroupID (g : Game) (order : List (PlayerID × Ptr)) (q p : Ptr)
    (e : PlayerID × Ptr) :
    nearbyOther (getGroupID g order q).2 p e = nearbyOther g p e :=
  nearbyOther_congr g _ (fun r => ⟨(getGroupID_heap_frame g order q r).1,
    (getGroupID_heap_frame g order q r).2.1, (getGroupID_heap_frame g order q r).2.2.1⟩) p e

theorem AddPlayer_Players_subset (g : Game) (p : Ptr) :
    ∀ e ∈ g.Players, e ∈ (AddPlayer g p).2.Players := by
  intro e he
  by_cases h : (g.heap p).PlayerID ∈ g.Players.map Prod.fst
  · rw [AddPlayer_fail g p h]; exact he
  · rw [AddPlayer_ok g p h]; simp [he]

/-- The group stored in a registered participant is a key of the map. -/
theorem Reachable_groups (g : Game) (hg : Reachable g) :
    ∀ e ∈ g.Players, (g.heap e.2).GroupID ∈ g.Players.map Prod.fst := by
  induction hg with
  | fresh heap => simp [newGame]
  | genPlayerID g _ ih =>
    obtain ⟨hh, hp⟩ := genPlayerID_frame g
    rw [hp, hh]; exact ih
  | AddPlayer g p hr ih =>
    have hwf := Reachable_WF g hr
    by_cases h : (g.heap p).PlayerID ∈ g.Players.map Prod.fst
    · rw [AddPlayer_fail g p h]; exact ih
    · have hns := WF_not_stored_of_new_id g hwf p h
      rw [AddPlayer_ok g p h]
      intro e he
      simp only [List.mem_append, List.mem_singleton] at he
      simp only [List.map_append, List.mem_append]
      rcases he with he | rfl
      · left
        have hne : e.2 ≠ p := hns e he
        simp only [Function.update, hne, dite_false]
        exact ih e he
      · right
        simp [Function.update]
  | GetPlayer g id _ ih => rw [GetPlayer_state]; exact ih
  | getGroupID g order p _ hord ih =>
    rw [getGroupID_Players]
    intro e he
    rcases getGroupID_cases g order p with h | ⟨x, hx, _, h⟩
    · rw [h]; exact ih e he
    · rw [h]
      have hxP : x ∈ g.Players := (List.Perm.mem_iff hord).mp hx
      obtain ⟨k, q⟩ := e
      by_cases hep : q = p
      · subst hep
        simpa using ih x hxP
      · have := ih (k, q) he
        simpa [Function.update, hep] using this

/-- A registered participant either still stores its own id as group or has another
participant nearby. -/
theorem Reachable_own_group_or_neighbour (g : Game) (hg : Reachable g) :
    ∀ e ∈ g.Players,
      (g.heap e.2).GroupID = e.1 ∨ ∃ x ∈ g.Players, nearbyOther g e.2 x = true := by
  induction hg with
  | fresh heap => simp [newGame]
  | genPlayerID g _ ih =>
    obtain ⟨hh, hp⟩ := genPlayerID_frame g
    intro e he
    rw [hp] at he
    rcases ih e he with h1 | ⟨x, hx, hn⟩
    · left; rw [hh]; exact h1
    · right
      refine ⟨x, by rw [hp]; exact hx, ?_⟩
      rw [← hn]
      exact nearbyOther_congr g _ (fun q => by rw [hh]; exact ⟨rfl, rfl, rfl⟩) e.2 x
  | AddPlayer g p hr ih =>
    have hwf := Reachable_WF g hr
    by_cases h : (g.heap p).PlayerID ∈ g.Players.map Prod.fst
    · rw [AddPlayer_fail g p h]; exact ih
    · have hns := WF_not_stored_of_new_id g hwf p h
      intro e he
      have he2 := he
      rw [AddPlayer_ok g p h] at he2
      simp only [List.mem_append, List.mem_singleton] at he2
      rcases he2 with he2 | rfl
      · rcases ih e he2 with h1 | ⟨x, hx, hn⟩
        · left
          rw [(AddPlayer_heap_frame g p e.2).2.2.2 (hns e he2)]
          exact h1
        · right
          refine ⟨x, AddPlayer_Players_subset g p x hx, ?_⟩
          rw [nearbyOther_AddPlayer]; exact hn
      · left
        rw [AddPlayer_ok g p h]
        simp [Function.update]
  | GetPlayer g id _ ih => rw [GetPlayer_state]; exact ih
  | getGroupID g order p _ hord ih =>
    intro e he
    rw [getGroupID_Players] at he
    rcases ih e he with h1 | ⟨x, hx, hn⟩
    · rcases getGroupID_cases g order p with h | ⟨x, hx, hn, _⟩
      · rw [h]; left; exact h1
      · by_cases hep : e.2 = p
        · right
          refine ⟨x, by rw [getGroupID_Players]; exact (List.Perm.mem_iff hord).mp hx, ?_⟩
          rw [nearbyOther_getGroupID, hep]; exact hn
        · left
          rw [(getGroupID_heap_frame g order p e.2).2.2.2 hep]
          exact h1
    · right
      refine ⟨x, by rw [getGroupID_Players]; exact hx, ?_⟩
      rw [nearbyOther_getGroupID]; exact hn


theorem loneAdded_Players : loneAdded.Players = [(5, 0)] := by
  simp [loneAdded, freshWithFive, AddPlayer, newGame, heapOf, mapGet, mapSet, Function.update]

theorem loneAdded_heap :
    loneAdded.heap 0 = { PlayerID := 5, GroupID := 5, X := 1, Y := 2 } := by
  simp [loneAdded, freshWithFive, AddPlayer, newGame, heapOf, mapGet, mapSet, Function.update]

theorem loneAdded_Reachable : Reachable loneAdded :=
  Reachable.AddPlayer _ 0 (Reachable.fresh _)

/-- C11: in every state reachable from the fresh registry (by `AddPlayer` and
`getGroupID` calls, and also `genPlayerID` and `GetPlayer` calls), a participant
registered under `id` that has no nearby other participant carries the id `id`,
stores `id` as its group, and for every scan order `getGroupID` on it returns `id`
and changes nothing.  A participant that `AddPlayer` has just registered stores its
own id as group, so the same holds for it in the state after the insertion. -/
theorem C11_lonely_participant_has_own_group (g : Game) (hg : Reachable g)
    (id : PlayerID) (p : Ptr) (hst : (id, p) ∈ g.Players)
    (hno : ∀ e ∈ g.Players, nearbyOther g p e = false) :
    (g.heap p).PlayerID = id ∧ (g.heap p).GroupID = id ∧
    (∀ order, IsScanOrder g order → getGroupID g order p = (id, g)) ∧
    (∀ q : Ptr, (AddPlayer g q).1 = none →
      ((AddPlayer g q).2.heap q).PlayerID = (g.heap q).PlayerID ∧
      ((AddPlayer g q).2.heap q).GroupID = (g.heap q).PlayerID ∧
      ((g.heap q).PlayerID, q) ∈ (AddPlayer g q).2.Players ∧
      Reachable (AddPlayer g q).2) := by
  have hwf := Reachable_WF g hg
  have hgrp : (g.heap p).GroupID = id := by
    rcases Reachable_own_group_or_neighbour g hg (id, p) hst with h | ⟨x, hx, hn⟩
    · exact h
    · rw [hno x hx] at hn; exact absurd hn (by simp)
  refine ⟨hwf.2 (id, p) hst, hgrp, ?_, ?_⟩
  · intro order hord
    rw [getGroupID_no_hit g p order
      (fun x hx => hno x ((List.Perm.mem_iff hord).mp hx)), hgrp]
  · intro q hq
    have hnew : (g.heap q).PlayerID ∉ g.Players.map Prod.fst := by
      intro hin
      rw [AddPlayer_fail g q hin] at hq
      simp at hq
    refine ⟨(AddPlayer_heap_frame g q q).1, ?_, ?_, Reachable.AddPlayer g q hg⟩
    · rw [AddPlayer_ok g q hnew]; simp
    · rw [AddPlayer_ok g q hnew]; simp

/-- C11 (witness): in `loneAdded` the participant registered under 5 is alone. -/
theorem C11_witness :
    (loneAdded.heap 0).PlayerID = 5 ∧ (loneAdded.heap 0).GroupID = 5 ∧
    (∀ order, IsScanOrder loneAdded order → getGroupID loneAdded order 0 = (5, loneAdded)) ∧
    (∀ q : Ptr, (AddPlayer loneAdded q).1 = none →
      ((AddPlayer loneAdded q).2.heap q).PlayerID = (loneAdded.heap q).PlayerID ∧
      ((AddPlayer loneAdded q).2.heap q).GroupID = (loneAdded.heap q).PlayerID ∧
      ((loneAdded.heap q).PlayerID, q) ∈ (AddPlayer loneAdded q).2.Players ∧
      Reachable (AddPlayer loneAdded q).2) :=
  C11_lonely_participant_has_own_group loneAdded loneAdded_Reachable 5 0
    (by rw [loneAdded_Players]; exact List.mem_singleton.mpr rfl)
    (by
      intro e he
      rw [loneAdded_Players] at he
      rw [List.mem_singleton.mp he]
      simp only [nearbyOther, loneAdded_heap]
      simp)

/-- C2: in every registry state (every state the registry operations reach from the
fresh registry), for every participant `p` registered in the map and every scan
order: when no entry of the map is another participant nearby `p`, `getGroupID`
returns the id of `p`, the group stored in `p` after the call is the id of `p`, and
the registry is exactly as it was.  The entry of `p` itself does not count as a
neighbour although `p` is within the threshold of itself. -/
theorem C2_getGroupID_returns_own_id (g : Game) (hg : Reachable g)
    (order : List (PlayerID × Ptr)) (id : PlayerID) (p : Ptr)
    (hst : (id, p) ∈ g.Players) (hord : IsScanOrder g order)
    (hno : ∀ e ∈ g.Players, nearbyOther g p e = false) :
    (getGroupID g order p).1 = (g.heap p).PlayerID ∧
    ((getGroupID g order p).2.heap p).GroupID = (g.heap p).PlayerID ∧
    (getGroupID g order p).2 = g ∧
    isNearby (g.heap p).X (g.heap p).Y (g.heap p).X (g.heap p).Y = true ∧
    nearbyOther g p (id, p) = false ∧
    (g.heap p).PlayerID = id := by
  have hwf := Reachable_WF g hg
  have hid : (g.heap p).PlayerID = id := hwf.2 (id, p) hst
  have hgrp : (g.heap p).GroupID = (g.heap p).PlayerID := by
    rcases Reachable_own_group_or_neighbour g hg (id, p) hst with h | ⟨x, hx, hn⟩
    · rw [hid]; exact h
    · rw [hno x hx] at hn; exact absurd hn (by simp)
  have hres : getGroupID g order p = ((g.heap p).GroupID, g) :=
    getGroupID_no_hit g p order (fun x hx => hno x ((List.Perm.mem_iff hord).mp hx))
  rw [hres]
  exact ⟨hgrp, hgrp, rfl, isNearby_self _ _, hno (id, p) hst, hid⟩

/-- C2 (witness): in `loneAdded` the participant registered under 5 has nobody
nearby; its own entry is in the map and is skipped. -/
theorem C2_witness :
    (getGroupID loneAdded [(5, 0)] 0).1 = (loneAdded.heap 0).PlayerID ∧
    ((getGroupID loneAdded [(5, 0)] 0).2.heap 0).GroupID = (loneAdded.heap 0).PlayerID ∧
    (getGroupID loneAdded [(5, 0)] 0).2 = loneAdded ∧
    isNearby (loneAdded.heap 0).X (loneAdded.heap 0).Y (loneAdded.heap 0).X
      (loneAdded.heap 0).Y = true ∧
    nearbyOther loneAdded 0 (5, 0) = false ∧
    (loneAdded.heap 0).PlayerID = 5 :=
  C2_getGroupID_returns_own_id loneAdded loneAdded_Reachable [(5, 0)] 5 0
    (by rw [loneAdded_Players]; exact List.mem_singleton.mpr rfl)
    (by unfold IsScanOrder; rw [loneAdded_Players])
    (by
      intro e he
      rw [loneAdded_Players] at he
      rw [List.mem_singleton.mp he]
      simp only [nearbyOther, loneAdded_heap]
      simp)

/-- C18: in every state reachable from the fresh registry (by `AddPlayer` and
`getGroupID` calls, and also `genPlayerID` and `GetPlayer` calls), the group stored
in every registered participant is the id of a participant currently in the map; and
for every registered participant `p` and every scan order, the value `getGroupID`
returns is the id of a participant currently in the map. -/
theorem C18_groups_are_registered_ids (g : Game) (hg : Reachable g) :
    (∀ e ∈ g.Players, ∃ r ∈ g.Players,
      (g.heap e.2).GroupID = r.1 ∧ (g.heap r.2).PlayerID = r.1) ∧
    (∀ (order : List (PlayerID × Ptr)) (p : Ptr), IsScanOrder g order → g.Stored p →
      ∃ r ∈ g.Players,
        (getGroupID g order p).1 = r.1 ∧ (g.heap r.2).PlayerID = r.1) := by
  have hwf := Reachable_WF g hg
  have hJ := Reachable_groups g hg
  have hkey : ∀ k : PlayerID, k ∈ g.Players.map Prod.fst →
      ∃ r ∈ g.Players, k = r.1 ∧ (g.heap r.2).PlayerID = r.1 := by
    intro k hk
    obtain ⟨r, hr, hrk⟩ := List.mem_map.mp hk
    exact ⟨r, hr, hrk.symm, hwf.2 r hr⟩
  constructor
  · intro e he
    exact hkey _ (hJ e he)
  · intro order p hord hst
    obtain ⟨id, hp⟩ := hst
    rcases getGroupID_cases g order p with h | ⟨x, hx, _, h⟩
    · rw [h]
      exact hkey _ (hJ (id, p) hp)
    · rw [h]
      exact hkey _ (hJ x ((List.Perm.mem_iff hord).mp hx))

/-- C18 (witness): `threeAtOrigin`, three participants registered with `AddPlayer`. -/
theorem C18_witness :
    (∀ e ∈ threeAtOrigin.Players, ∃ r ∈ threeAtOrigin.Players,
      (threeAtOrigin.heap e.2).GroupID = r.1 ∧ (threeAtOrigin.heap r.2).PlayerID = r.1) ∧
    (∀ (order : List (PlayerID × Ptr)) (p : Ptr),
      IsScanOrder threeAtOrigin order → threeAtOrigin.Stored p →
      ∃ r ∈ threeAtOrigin.Players,
        (getGroupID threeAtOrigin order p).1 = r.1 ∧
        (threeAtOrigin.heap r.2).PlayerID = r.1) :=
  C18_groups_are_registered_ids threeAtOrigin
    (Reachable.AddPlayer _ 2 (Reachable.AddPlayer _ 1 (Reachable.AddPlayer _ 0
      (Reachable.fresh _))))


/-! ## The counter -/

/-- The step of `genPlayerID` for every `int64` counter value below the largest one,
where `playersCounter++` does not wrap. -/
theorem genPlayerID_counter_int64 (g : Game) (hr : IsInt64 g.playersCounter)
    (hmax : g.playersCounter ≠ MaxInt64) :
    ((genPlayerID g).1.2 ≠ none ↔ g.playersCounter = MaxPlayers) ∧
    ((genPlayerID g).1.2 ≠ none →
      (genPlayerID g).1 = (-1, some GameError.maxPlayersReached) ∧ (genPlayerID g).2 = g) ∧
    ((genPlayerID g).1.2 = none →
      (genPlayerID g).1.1 = g.playersCounter ∧
      (genPlayerID g).2.playersCounter = g.playersCounter + 1) ∧
    g.playersCounter ≤ (genPlayerID g).2.playersCounter := by
  by_cases hc : g.playersCounter = MaxPlayers
  · simp [genPlayerID, hc]
  · have hw : wrapInt64 (g.playersCounter + 1) = g.playersCounter + 1 := by
      obtain ⟨h1, h2⟩ := hr
      simp only [MaxInt64] at hmax
      simp only [wrapInt64]
      omega
    simp [genPlayerID, hc, hw]

/-- The counter of a reachable state is one of 0, 1, ..., 100. -/
theorem Reachable_counter (g : Game) (hg : Reachable g) :
    0 ≤ g.playersCounter ∧ g.playersCounter ≤ 100 := by
  induction hg with
  | fresh heap => simp [newGame]
  | genPlayerID g _ ih =>
    rcases lt_or_eq_of_le ih.2 with hlt | heq
    · rw [genPlayerID_counter_of_lt g ih.1 hlt]
      constructor
      · show 0 ≤ g.playersCounter + 1
        omega
      · show g.playersCounter + 1 ≤ 100
        omega
    · rw [genPlayerID_full g heq]; exact ih
  | AddPlayer g p _ ih => rw [AddPlayer_playersCounter]; exact ih
  | GetPlayer g id _ ih => rw [GetPlayer_state]; exact ih
  | getGroupID g order p _ _ ih => rw [getGroupID_playersCounter]; exact ih

/-- C12: for every counter value, that is in every state the registry operations
reach from the fresh registry (the counter is then one of 0, ..., 100): a failed
`genPlayerID`, which happens exactly when the counter is `MaxPlayers`, returns the
sentinel id -1 with the error "max players reached" and leaves `playersCounter`,
and the whole registry, unchanged; a successful `genPlayerID` returns the old
counter value as the id and leaves `playersCounter` exactly one larger; so the
counter does not decrease, under `genPlayerID` nor under any other operation. -/
theorem C12_genPlayerID_counter (g : Game) (hg : Reachable g) :
    ((genPlayerID g).1.2 ≠ none →
      (genPlayerID g).2.playersCounter = g.playersCounter ∧
      (genPlayerID g).1 = (-1, some GameError.maxPlayersReached) ∧
      (genPlayerID g).2 = g) ∧
    ((genPlayerID g).1.2 = none →
      (genPlayerID g).1.1 = g.playersCounter ∧
      (genPlayerID g).2.playersCounter = g.playersCounter + 1) ∧
    g.playersCounter ≤ (genPlayerID g).2.playersCounter ∧
    (∀ op : Op, g.playersCounter ≤ (op.next g).playersCounter) ∧
    ((genPlayerID g).1.2 ≠ none ↔ g.playersCounter = MaxPlayers) ∧
    (0 ≤ g.playersCounter ∧ g.playersCounter ≤ MaxPlayers) := by
  obtain ⟨h0, h100⟩ := Reachable_counter g hg
  have hr : IsInt64 g.playersCounter := by
    constructor <;> omega
  have hmax : g.playersCounter ≠ MaxInt64 := by
    simp only [MaxInt64]; omega
  obtain ⟨hiff, hfail, hok, hmono⟩ := genPlayerID_counter_int64 g hr hmax
  refine ⟨?_, hok, hmono, ?_, hiff, h0, by simp only [MaxPlayers]; exact h100⟩
  · intro hf
    obtain ⟨h1, h2⟩ := hfail hf
    exact ⟨by rw [h2], h1, h2⟩
  · intro op
    cases op with
    | genPlayerID => exact hmono
    | AddPlayer p => exact le_of_eq (AddPlayer_playersCounter g p).symm
    | GetPlayer id =>
      show g.playersCounter ≤ (GetPlayer g id).2.playersCounter
      rw [GetPlayer_state]
    | getGroupID order p => exact le_of_eq (getGroupID_playersCounter g order p).symm

theorem genTimes_Reachable (heap : Ptr → Player) (n : Nat) :
    Reachable (genTimes (newGame heap) n) := by
  induction n with
  | zero => exact Reachable.fresh heap
  | succ n ih => exact Reachable.genPlayerID _ ih

/-- C12 (witness): the registry after 100 calls of `genPlayerID`, where the next call
fails. -/
theorem C12_witness :
    ((genPlayerID (genTimes freshWithFive 100)).1.2 ≠ none →
      (genPlayerID (genTimes freshWithFive 100)).2.playersCounter =
        (genTimes freshWithFive 100).playersCounter ∧
      (genPlayerID (genTimes freshWithFive 100)).1 = (-1, some GameError.maxPlayersReached) ∧
      (genPlayerID (genTimes freshWithFive 100)).2 = genTimes freshWithFive 100) ∧
    ((genPlayerID (genTimes freshWithFive 100)).1.2 = none →
      (genPlayerID (genTimes freshWithFive 100)).1.1 =
        (genTimes freshWithFive 100).playersCounter ∧
      (genPlayerID (genTimes freshWithFive 100)).2.playersCounter =
        (genTimes freshWithFive 100).playersCounter + 1) ∧
    (genTimes freshWithFive 100).playersCounter ≤
      (genPlayerID (genTimes freshWithFive 100)).2.playersCounter ∧
    (∀ op : Op, (genTimes freshWithFive 100).playersCounter ≤
      (op.next (genTimes freshWithFive 100)).playersCounter) ∧
    ((genPlayerID (genTimes freshWithFive 100)).1.2 ≠ none ↔
      (genTimes freshWithFive 100).playersCounter = MaxPlayers) ∧
    (0 ≤ (genTimes freshWithFive 100).playersCounter ∧
      (genTimes freshWithFive 100).playersCounter ≤ MaxPlayers) :=
  C12_genPlayerID_counter (genTimes freshWithFive 100) (genTimes_Reachable _ 100)

/-! ## What `AddPlayer` and `getGroupID` change -/

theorem mapGet_append_singleton (m : List (PlayerID × Ptr)) (k id : PlayerID) (v : Ptr) :
    mapGet (m ++ [(k, v)]) id =
      match mapGet m id with
      | some q => some q
      | none => if k = id then some v else none := by
  induction m with
  | nil => simp [mapGet]
  | cons e m ih =>
    obtain ⟨k1, v1⟩ := e
    by_cases hk : k1 = id
    · simp [mapGet, hk]
    · simp [mapGet, hk, ih]

/-- C13: in every registry state, for every participant `p` whose id is not a key of
the map: `AddPlayer` succeeds; afterwards `GetPlayer` of that id returns `p`, which
has the id and the coordinates it had and its id as group, whatever its group was;
`GetPlayer` of every other id returns what it returned before the call, and a
participant it returns that is stored under its own id is unchanged. -/
theorem C13_AddPlayer_inserts (g : Game) (p : Ptr)
    (hnew : (g.heap p).PlayerID ∉ g.Players.map Prod.fst) :
    (AddPlayer g p).1 = none ∧
    (GetPlayer (AddPlayer g p).2 (g.heap p).PlayerID).1 = Except.ok p ∧
    (AddPlayer g p).2.heap p =
      { PlayerID := (g.heap p).PlayerID, GroupID := (g.heap p).PlayerID,
        X := (g.heap p).X, Y := (g.heap p).Y } ∧
    (∀ id : PlayerID, id ≠ (g.heap p).PlayerID →
      (GetPlayer (AddPlayer g p).2 id).1 = (GetPlayer g id).1) ∧
    (∀ (id : PlayerID) (q : Ptr), id ≠ (g.heap p).PlayerID →
      (GetPlayer g id).1 = Except.ok q → (g.heap q).PlayerID = id →
      (AddPlayer g p).2.heap q = g.heap q) := by
  have hget := (mapGet_eq_none_iff _ _).mpr hnew
  rw [AddPlayer_ok g p hnew]
  refine ⟨rfl, ?_, by simp, ?_, ?_⟩
  · simp [GetPlayer, mapGet_append_singleton, hget]
  · intro id hid
    have hne : ¬ (g.heap p).PlayerID = id := fun h => hid h.symm
    simp only [GetPlayer, mapGet_append_singleton]
    cases mapGet g.Players id <;> simp [hne]
  · intro id q hid _ hq
    have hqp : q ≠ p := by
      intro h
      rw [h] at hq
      exact hid hq.symm
    simp [Function.update, hqp]

/-- C13 (witness): the fresh registry and a participant built with id 5, group 9. -/
theorem C13_witness :
    (AddPlayer freshWithFive 0).1 = none ∧
    (GetPlayer (AddPlayer freshWithFive 0).2 (freshWithFive.heap 0).PlayerID).1 = Except.ok 0 ∧
    (AddPlayer freshWithFive 0).2.heap 0 =
      { PlayerID := (freshWithFive.heap 0).PlayerID, GroupID := (freshWithFive.heap 0).PlayerID,
        X := (freshWithFive.heap 0).X, Y := (freshWithFive.heap 0).Y } ∧
    (∀ id : PlayerID, id ≠ (freshWithFive.heap 0).PlayerID →
      (GetPlayer (AddPlayer freshWithFive 0).2 id).1 = (GetPlayer freshWithFive id).1) ∧
    (∀ (id : PlayerID) (q : Ptr), id ≠ (freshWithFive.heap 0).PlayerID →
      (GetPlayer freshWithFive id).1 = Except.ok q → (freshWithFive.heap q).PlayerID = id →
      (AddPlayer freshWithFive 0).2.heap q = freshWithFive.heap q) :=
  C13_AddPlayer_inserts freshWithFive 0 (by simp [freshWithFive, newGame])

/-- C16: in every registry state, for every participant `p` and every scan order,
`getGroupID` leaves the map (its keys and the pointers stored under them) and
`playersCounter` as they were, leaves the id and the coordinates of every
participant, `p` included, as they were, and leaves every participant other than `p`
entirely unchanged, its group included: only the group field of `p` can differ. -/
theorem C16_getGroupID_frame (g : Game) (order : List (PlayerID × Ptr)) (p : Ptr) :
    (getGroupID g order p).2.Players = g.Players ∧
    (getGroupID g order p).2.playersCounter = g.playersCounter ∧
    (∀ q : Ptr,
      ((getGroupID g order p).2.heap q).PlayerID = (g.heap q).PlayerID ∧
      ((getGroupID g order p).2.heap q).X = (g.heap q).X ∧
      ((getGroupID g order p).2.heap q).Y = (g.heap q).Y) ∧
    (∀ q : Ptr, q ≠ p → (getGroupID g order p).2.heap q = g.heap q) ∧
    (getGroupID g order p).2 =
      { g with heap := Function.update g.heap p
                 { g.heap p with GroupID := (getGroupID g order p).1 } } := by
  refine ⟨getGroupID_Players g order p, getGroupID_playersCounter g order p, ?_, ?_, ?_⟩
  · intro q
    have h := getGroupID_heap_frame g order p q
    exact ⟨h.1, h.2.1, h.2.2.1⟩
  · intro q hq
    exact (getGroupID_heap_frame g order p q).2.2.2 hq
  · rcases getGroupID_cases g order p with h | ⟨e, _, _, h⟩
    · rw [h]
      simp
    · rw [h]


/-! ## Registration through the register entry point -/

theorem InitPlayerHandler_full (g : Game) (ptr : Ptr) (x y : ℚ)
    (h : g.playersCounter = 100) :
    InitPlayerHandler g ptr x y = (some GameError.maxPlayersReached, g) := by
  simp [InitPlayerHandler, genPlayerID_full g h]

theorem InitPlayerHandler_ok (g : Game) (ptr : Ptr) (x y : ℚ)
    (h0 : 0 ≤ g.playersCounter) (h1 : g.playersCounter < 100)
    (hnew : g.playersCounter ∉ g.Players.map Prod.fst) :
    InitPlayerHandler g ptr x y =
      (none,
        { heap := Function.update g.heap ptr
            { PlayerID := g.playersCounter, GroupID := g.playersCounter, X := x, Y := y }
          Players := g.Players ++ [(g.playersCounter, ptr)]
          playersCounter := g.playersCounter + 1 }) := by
  simp only [InitPlayerHandler, genPlayerID_counter_of_lt g h0 h1]
  rw [AddPlayer_ok _ ptr (by simpa using hnew)]
  simp

theorem GroupHandler_frame (g : Game) (order : List (PlayerID × Ptr)) (id : PlayerID) :
    (GroupHandler g order id).2.Players = g.Players ∧
    (GroupHandler g order id).2.playersCounter = g.playersCounter := by
  cases hget : mapGet g.Players id with
  | none => simp [GroupHandler, GetPlayer, hget]
  | some q =>
    simp [GroupHandler, GetPlayer, hget, getGroupID_Players, getGroupID_playersCounter]

/-- With registration through the register entry point only, the counter stays in
`[0, 100]`, every key of the map is an id below the counter, the keys are distinct
and there are at most as many entries as the counter says. -/
theorem HandlerReach_invariant (g : Game) (hg : HandlerReach g) :
    0 ≤ g.playersCounter ∧ g.playersCounter ≤ 100 ∧
    (∀ k : Int, k ∈ g.Players.map Prod.fst → 0 ≤ k ∧ k < g.playersCounter) ∧
    (g.Players.map Prod.fst).Nodup ∧
    (g.Players.length : Int) ≤ g.playersCounter := by
  induction hg with
  | fresh heap => simp [newGame]
  | register g ptr x y _ _ ih =>
    obtain ⟨h0, h100, hkeys, hnd, hlen⟩ := ih
    rcases lt_or_eq_of_le h100 with hlt | heq
    · have hnew : g.playersCounter ∉ g.Players.map Prod.fst := by
        intro hin
        have := (hkeys _ hin).2
        omega
      rw [InitPlayerHandler_ok g ptr x y h0 hlt hnew]
      refine ⟨by show 0 ≤ g.playersCounter + 1; omega,
        by show g.playersCounter + 1 ≤ 100; omega, ?_, ?_, ?_⟩
      · intro k hk
        show 0 ≤ k ∧ k < g.playersCounter + 1
        simp only [List.map_append, List.map_cons, List.map_nil, List.mem_append,
          List.mem_singleton] at hk
        rcases hk with hk | hk
        · have := hkeys k hk
          omega
        · omega
      · simp only [List.map_append, List.map_cons, List.map_nil]
        rw [List.nodup_append]
        refine ⟨hnd, by simp, ?_⟩
        intro a ha hb
        simp only [List.mem_singleton] at hb
        rw [hb] at ha
        exact hnew ha
      · show ((g.Players ++ [(g.playersCounter, ptr)]).length : Int) ≤ g.playersCounter + 1
        simp only [List.length_append, List.length_singleton]
        push_cast
        omega
    · rw [InitPlayerHandler_full g ptr x y heq]
      exact ⟨h0, h100, hkeys, hnd, hlen⟩
  | genPlayerID g _ ih =>
    obtain ⟨h0, h100, hkeys, hnd, hlen⟩ := ih
    rcases lt_or_eq_of_le h100 with hlt | heq
    · rw [genPlayerID_counter_of_lt g h0 hlt]
      refine ⟨by show 0 ≤ g.playersCounter + 1; omega,
        by show g.playersCounter + 1 ≤ 100; omega, ?_, hnd, ?_⟩
      · intro k hk
        show 0 ≤ k ∧ k < g.playersCounter + 1
        have := hkeys k hk
        omega
      · show (g.Players.length : Int) ≤ g.playersCounter + 1
        omega
    · rw [genPlayerID_full g heq]
      exact ⟨h0, h100, hkeys, hnd, hlen⟩
  | GetPlayer g id _ ih => rw [GetPlayer_state]; exact ih
  | getGroupID g order p _ _ ih =>
    rw [getGroupID_Players, getGroupID_playersCounter]; exact ih
  | query g order id _ _ ih =>
    rw [(GroupHandler_frame g order id).1, (GroupHandler_frame g order id).2]; exact ih


/-- C14: in every state reached from a fresh registry when participants are
registered only through the register entry point, a further registration
(`genPlayerID`, then `AddPlayer` of a new participant carrying the id just issued,
allocated at any address) never reports the error "player exists": every key of
the map is strictly below `playersCounter`, an id that `genPlayerID` issues is not a
key of the map, and the registration succeeds whenever the counter is below 100
(otherwise it reports "max players reached"). -/
theorem C14_register_never_duplicate (g : Game) (hg : HandlerReach g)
    (ptr : Ptr) (x y : ℚ) :
    (InitPlayerHandler g ptr x y).1 ≠ some GameError.playerExists ∧
    (∀ k : Int, k ∈ g.Players.map Prod.fst → k < g.playersCounter) ∧
    ((genPlayerID g).1.2 = none → (genPlayerID g).1.1 ∉ g.Players.map Prod.fst) ∧
    (g.playersCounter < 100 → (InitPlayerHandler g ptr x y).1 = none) ∧
    (g.playersCounter = 100 →
      (InitPlayerHandler g ptr x y).1 = some GameError.maxPlayersReached) := by
  obtain ⟨h0, h100, hkeys, _, _⟩ := HandlerReach_invariant g hg
  have hnew : g.playersCounter ∉ g.Players.map Prod.fst := by
    intro hin
    have := (hkeys _ hin).2
    omega
  refine ⟨?_, fun k hk => (hkeys k hk).2, ?_, ?_, ?_⟩
  · rcases lt_or_eq_of_le h100 with hlt | heq
    · rw [InitPlayerHandler_ok g ptr x y h0 hlt hnew]; simp
    · rw [InitPlayerHandler_full g ptr x y heq]; simp
  · rcases lt_or_eq_of_le h100 with hlt | heq
    · rw [genPlayerID_counter_of_lt g h0 hlt]
      intro _
      exact hnew
    · rw [genPlayerID_full g heq]
      intro h
      simp at h
  · intro hlt
    rw [InitPlayerHandler_ok g ptr x y h0 hlt hnew]
  · intro heq
    rw [InitPlayerHandler_full g ptr x y heq]

theorem oneRegistered_HandlerReach : HandlerReach oneRegistered :=
  HandlerReach.register _ 0 1 2 (HandlerReach.fresh _) (by
    intro e he
    simp [freshWithFive, newGame] at he)

/-- C14 (witness): a second registration after the one of `oneRegistered`. -/
theorem C14_witness :
    (InitPlayerHandler oneRegistered 1 0 0).1 ≠ some GameError.playerExists ∧
    (∀ k : Int, k ∈ oneRegistered.Players.map Prod.fst → k < oneRegistered.playersCounter) ∧
    ((genPlayerID oneRegistered).1.2 = none →
      (genPlayerID oneRegistered).1.1 ∉ oneRegistered.Players.map Prod.fst) ∧
    (oneRegistered.playersCounter < 100 → (InitPlayerHandler oneRegistered 1 0 0).1 = none) ∧
    (oneRegistered.playersCounter = 100 →
      (InitPlayerHandler oneRegistered 1 0 0).1 = some GameError.maxPlayersReached) :=
  C14_register_never_duplicate oneRegistered oneRegistered_HandlerReach 1 0 0

/-! ## The size of the map -/

theorem addTimes_spec (n : Nat) :
    (addTimes n).Players = (List.range n).map (fun i : Nat => ((i : Int), i)) ∧
    ∀ k : Nat, ((addTimes n).heap k).PlayerID = (k : Int) := by
  induction n with
  | zero => simp [addTimes, newGame, idHeap]
  | succ n ih =>
    obtain ⟨hP, hH⟩ := ih
    have hnew : ((addTimes n).heap n).PlayerID ∉ (addTimes n).Players.map Prod.fst := by
      rw [hH n, hP]
      simp only [List.map_map, List.mem_map, List.mem_range, Function.comp, not_exists, not_and]
      intro i hi h
      have hin : i = n := by exact_mod_cast h
      omega
    constructor
    · simp only [addTimes]
      rw [AddPlayer_ok _ n hnew, List.range_succ, List.map_append, hH n, hP]
      rfl
    · intro k
      simp only [addTimes]
      rw [(AddPlayer_heap_frame (addTimes n) n k).1]
      exact hH k

theorem addTimes_Reachable (n : Nat) : Reachable (addTimes n) := by
  induction n with
  | zero => exact Reachable.fresh idHeap
  | succ n ih => exact Reachable.AddPlayer _ n ih

/-- C15 (counterexample): the claim as stated fails.  `AddPlayer` called on 101
participants with the ids 0, 1, ..., 100 chosen by the caller, from the fresh
registry and without any `genPlayerID` call, succeeds every time and leaves a map
with 101 entries under 101 distinct ids. -/
theorem C15_counterexample :
    ¬ (∀ g : Game, Reachable g → g.Players.length ≤ 100) := by
  intro h
  have h101 := h (addTimes 101) (addTimes_Reachable 101)
  rw [(addTimes_spec 101).1] at h101
  simp at h101

/-- C15 (amended): in every state reached from a fresh registry when participants
are registered only through the register entry point (`genPlayerID`, then
`AddPlayer` of a new participant carrying the id just issued), with `genPlayerID`,
`GetPlayer`, `getGroupID` and group queries called freely in between, the map holds
at most `MaxPlayers = 100` participants (its keys are distinct, so its entries count
the participants), and never more than the counter says. -/
theorem C15_handler_capacity (g : Game) (hg : HandlerReach g) :
    (g.Players.length : Int) ≤ MaxPlayers ∧
    (g.Players.map Prod.fst).Nodup ∧
    (g.Players.length : Int) ≤ g.playersCounter ∧ g.playersCounter ≤ MaxPlayers := by
  obtain ⟨_, h100, _, hnd, hlen⟩ := HandlerReach_invariant g hg
  refine ⟨?_, hnd, hlen, ?_⟩
  · simp only [MaxPlayers]; omega
  · simp only [MaxPlayers]; omega

/-- C15 (witness): the registry `oneRegistered`, after one registration. -/
theorem C15_witness :
    (oneRegistered.Players.length : Int) ≤ MaxPlayers ∧
    (oneRegistered.Players.map Prod.fst).Nodup ∧
    (oneRegistered.Players.length : Int) ≤ oneRegistered.playersCounter ∧
    oneRegistered.playersCounter ≤ MaxPlayers :=
  C15_handler_capacity oneRegistered oneRegistered_HandlerReach

end MinorBackend
